import Mathlib

/-!
Verification development for the jira_dumper repository.

The repository has two algorithmic modules:

* jira_fetch_issues.py: an adaptive query-window partitioner with
  per-window pagination (function scrape_project), writing a CSV table.
* jira_export_xml_attachments.py: an attachment synchronizer (function
  main) that decides skip/download per attachment entry by comparing the
  local file modification time against the createdAt timestamp of the
  entry, with a fail-fast abort on any non-200 byte fetch.

Dates and times are modelled as integers: query-window boundaries as
natural numbers of microseconds (the resolution of Python timedelta),
file modification times and parsed createdAt values as integers of
seconds.  The remote service is modelled as oracle functions passed in
as parameters (match counts, page contents, byte fetches), and the
filesystem as a map from path strings to file data.  The collaborator
functions strptime/mktime (timestamp parsing) and urllib quote
(percent-encoding) are likewise taken as parameters, since the spec
treats them as external collaborators.
-/

namespace JiraDumper

/-- Python truthiness of an optional string: None and the empty string are
falsy, every other string is truthy.  This models checks of the shape
if not x where x is an optional string attribute. -/
def pyTruthy : Option String → Bool
  | none => false
  | some s => !s.data.isEmpty

/-- Emptiness test on strings, evaluated structurally on the character
list so that concrete instances reduce in the kernel. -/
def strEmpty (s : String) : Bool := s.data.isEmpty

/-- Python str.strip(): remove whitespace from both ends.  Defined
structurally over the character list. -/
def pyStrip (s : String) : String :=
  String.mk (((s.data.dropWhile Char.isWhitespace).reverse.dropWhile Char.isWhitespace).reverse)

/-- Test used by the url builder of scrape_project:
href.startswith of a slash. -/
def startsWithSlash (s : String) : Bool :=
  match s.data with
  | [] => false
  | c :: _ => c = '/'

/-- Digit parser for the model of the Python int() conversion. -/
def parseDigits : List Char → Option Nat
  | [] => none
  | l => go l 0
where
  go : List Char → Nat → Option Nat
    | [], acc => some acc
    | c :: rest, acc =>
      if c.isDigit then go rest (acc * 10 + (c.toNat - 48)) else none

/-- Model of the Python int() conversion on strings: an optional leading
minus sign followed by decimal digits.  (Python also tolerates
surrounding whitespace, a leading plus and underscores; those inputs do
not occur in the claims settled here.) -/
def pyInt? (s : String) : Option Int :=
  match s.data with
  | '-' :: rest => (parseDigits rest).map (fun n => -(n : Int))
  | l => (parseDigits l).map (fun n => (n : Int))

namespace FetchIssues

/-- RESULT_THRESHOLD from jira_fetch_issues.py: maximum allowable results
before splitting the date range. -/
def RESULT_THRESHOLD : Nat := 500

/-- PAGE_SIZE from jira_fetch_issues.py: default Jira page size. -/
def PAGE_SIZE : Nat := 50

/-- One day in microseconds, the resolution of Python timedelta. -/
def microsecondsPerDay : Nat := 86400000000

/-- The initial window width used by scrape_project:
timedelta(days=180). -/
def initialDelta : Nat := 180 * microsecondsPerDay

/-- Division of a timedelta (in microseconds) by two, as Python performs
it: exact division rounded to the nearest microsecond, ties to even. -/
def halveDelta (d : Nat) : Nat :=
  if d % 2 = 0 then d / 2
  else if (d / 2) % 2 = 0 then d / 2 else d / 2 + 1

/-- The inner range-adjustment loop of scrape_project (the while True
loop over the JQL query): query the match count for the candidate window
from current_start to the candidate end; on count zero break, on count
above RESULT_THRESHOLD halve the width keeping the start fixed and
retry, otherwise break.  The count oracle abstracts get_results_count
after loading the JQL page for the window.  Fuel makes the
non-structural loop total; none means the loop did not finish within the
given fuel. -/
def adjustLoop (count : Nat → Nat → Nat) (s : Nat) : Nat → Nat → Option Nat
  | _, 0 => none
  | e, fuel + 1 =>
    let c := count s e
    if c = 0 then some e
    else if RESULT_THRESHOLD < c then adjustLoop count s (s + halveDelta (e - s)) fuel
    else some e

/-- The outer date loop of scrape_project: while current_start is before
end_date, build a candidate window of width 180 days, resolve it with
adjustLoop, record the resolved window and advance current_start to its
end.  Produces the list of query windows (start, end) in visit order.
Note that the code never clamps the candidate end to end_date. -/
def partitionWindows (count : Nat → Nat → Nat) : Nat → Nat → Nat → Option (List (Nat × Nat))
  | s, e, 0 => if s < e then none else some []
  | s, e, fuel + 1 =>
    if s < e then
      match adjustLoop count s (s + initialDelta) (fuel + 1) with
      | none => none
      | some w =>
        match partitionWindows count w e fuel with
        | none => none
        | some ws => some ((s, w) :: ws)
    else some []

/-- A raw issue row as scraped from one tr.issuerow element: the rel
attribute, the data-issuekey attribute, the href of the issue link and
the text of the summary link.  Each is None when the attribute or
element is absent. -/
structure RawRow where
  rel : Option String
  key : Option String
  href : Option String
  summary : Option String
deriving DecidableEq

/-- One accumulated issue record, as appended to issue_data:
(int(id_attr), key, summary, url). -/
structure IssueRec where
  ordinal : Int
  key : String
  title : String
  url : String
deriving DecidableEq

/-- The summary field of a kept row: summary.strip() if summary else
the empty string. -/
def titleOf (r : RawRow) : String :=
  if pyTruthy r.summary then pyStrip (r.summary.getD "") else ""

/-- The url field of a kept row: base_url + href if href starts with a
slash, else href unchanged. -/
def urlOf (base : String) (r : RawRow) : String :=
  let h := r.href.getD ""
  if startsWithSlash h then base ++ h else h

/-- The record built from a kept raw row (used to state what collectRows
produces; the ordinal is the parsed rel attribute). -/
def mkIssueRec (base : String) (r : RawRow) : IssueRec :=
  ⟨(pyInt? (r.rel.getD "")).getD 0, r.key.getD "", titleOf r, urlOf base r⟩

/-- The row-collection loop of scrape_project (for row in issue_rows):
a row is appended exactly when the rel attribute, the issue key and the
href are all truthy; the ordinal is int(id_attr), which raises on a
non-numeric value (modelled by the outer none).  Rows failing the
truthiness test are passed over with no logging. -/
def collectRows (base : String) : List RawRow → Option (List IssueRec)
  | [] => some []
  | r :: rest =>
    if pyTruthy r.rel && pyTruthy r.key && pyTruthy r.href then
      match pyInt? (r.rel.getD "") with
      | none => none
      | some n =>
        match collectRows base rest with
        | none => none
        | some recs => some (⟨n, r.key.getD "", titleOf r, urlOf base r⟩ :: recs)
    else collectRows base rest

/-- The page the browser shows for one paginated request: the
tr.issuerow elements and whether the a.nav-next element is present. -/
structure PageView where
  rows : List RawRow
  navNext : Bool

/-- The console output of the pagination loop, one constructor per print
statement in the loop body. -/
inductive PageLog where
  | fetching (idx : Nat)
  | noMore
  | collected (rowCount totalSoFar : Nat)
  | lastPage
deriving DecidableEq

/-- The pagination loop of scrape_project for one resolved window: fetch
the page at start_index, stop on an empty row list, collect the rows,
advance start_index by PAGE_SIZE, and stop when the nav-next element is
absent.  The oracle pg gives the page shown for each start_index; acc is
the number of records accumulated so far (len of issue_data), used only
in the collected log line.  Fuel makes the loop total; none covers both
fuel exhaustion and the int() exception from collectRows. -/
def paginateAux (base : String) (pg : Nat → PageView) : Nat → Nat → Nat → Option (List IssueRec × List PageLog)
  | 0, _, _ => none
  | fuel + 1, idx, acc =>
    let v := pg idx
    if v.rows.isEmpty then some ([], [.fetching idx, .noMore])
    else
      match collectRows base v.rows with
      | none => none
      | some recs =>
        let logs0 : List PageLog := [.fetching idx, .collected v.rows.length (acc + recs.length)]
        if v.navNext then
          match paginateAux base pg fuel (idx + PAGE_SIZE) (acc + recs.length) with
          | none => none
          | some (rs, ls) => some (recs ++ rs, logs0 ++ ls)
        else some (recs, logs0 ++ [.lastPage])

/-- The start_index values actually fetched, read off the log. -/
def pagesVisited (ls : List PageLog) : List Nat :=
  ls.filterMap fun
    | .fetching idx => some idx
    | _ => none

/-- A well-formed raw row used in concrete instantiations. -/
def rowA : RawRow := ⟨some "1", some "KA", some "ua", none⟩

/-- A second well-formed raw row used in concrete instantiations. -/
def rowB : RawRow := ⟨some "2", some "KB", some "ub", none⟩

/-- A third well-formed raw row used in concrete instantiations. -/
def rowC : RawRow := ⟨some "3", some "KC", some "uc", none⟩

/-- A raw row with no rel attribute (a row the collection loop drops),
used in concrete instantiations. -/
def rowNoRel : RawRow := ⟨none, some "KD", some "/d", some " t "⟩

/-- A two-page remote source used in concrete instantiations: the first
page holds two rows (fewer than PAGE_SIZE) and advertises a next page,
the second page holds one row and no next page. -/
def pgTwoPages : Nat → PageView := fun idx =>
  if idx = 0 then ⟨[rowA, rowB], true⟩
  else if idx = PAGE_SIZE then ⟨[rowC], false⟩
  else ⟨[], false⟩

/-- The CSV header row written by scrape_project. -/
def headerRow : List String := ["id", "key", "summary", "url"]

/-- One CSV data row for an accumulated record. -/
def recToRow (r : IssueRec) : List String :=
  [toString r.ordinal, r.key, r.title, r.url]

/-- The in-place sort before writing: issue_data.sort(key=lambda x: x[0]),
a stable sort by the ordinal.  No deduplication is performed anywhere. -/
def sortIssues (l : List IssueRec) : List IssueRec :=
  l.mergeSort (fun a b => a.ordinal ≤ b.ordinal)

/-- The record sink of scrape_project: sort issue_data by ordinal, then
write the header row followed by one row per record, rewriting the whole
table. -/
def commitRecords (l : List IssueRec) : List (List String) :=
  headerRow :: (sortIssues l).map recToRow

end FetchIssues

namespace Attachments

/-- A local file: its modification time in seconds and an abstract
content identifier (the bytes written). -/
structure FileData where
  mtime : Int
  content : Nat
deriving DecidableEq

/-- The local filesystem: a map from path strings to files. -/
def FS : Type := String → Option FileData

/-- Writing a file at a path. -/
def FS.update (fs : FS) (p : String) (fd : FileData) : FS :=
  fun q => if q = p then some fd else fs q

/-- The response of page.request.get on a download url: HTTP status and
an abstract body. -/
structure FetchResp where
  status : Nat
  body : Nat

/-- The four running counters of jira_export_xml_attachments.py:
total_estimated_size, total_downloaded_files, total_skipped_files and
total_downloaded_size.  There is no counter of failed entries. -/
structure Totals where
  estimatedSize : Nat
  downloadedFiles : Nat
  skippedFiles : Nat
  downloadedSize : Nat
deriving DecidableEq

/-- All counters zero, the state at program start. -/
def Totals.zero : Totals := ⟨0, 0, 0, 0⟩

/-- One queued download: (download_url, file_path, created, size) as
appended to the downloads list (the name component is already folded
into url and path). -/
structure DlEntry where
  url : String
  path : String
  created : String
  size : Nat
deriving DecidableEq

/-- Observable events of the synchronizer, one constructor per print or
network effect: the malformed-entry log line, the queued-attachment log
lines, the timestamp-match skip line, the byte fetch itself, the
non-200 error line, and the downloaded line. -/
inductive Ev where
  | malformed
  | queued (name url : String) (size : Nat)
  | skippedTs (path : String)
  | fetched (url : String)
  | authError (status : Nat)
  | downloaded (path : String)
deriving DecidableEq

/-- The outcome of a run: final filesystem, final counters, the event
trace, and whether the run was aborted by exit(1). -/
structure DlResult where
  fs : FS
  totals : Totals
  trace : List Ev
  aborted : Bool

/-- The download loop of main (for download_url, file_path, name,
created, size in downloads): if the target exists and force is not set,
compare its mtime with mktime(strptime(created)) under a strict
1-second tolerance and skip on a match; otherwise fetch the url, treat
a non-200 status as fatal for the whole invocation (exit(1)), and on
success write the body and set the file mtime to the parsed created
timestamp.  parseTime models mktime of strptime with the fixed format;
fetch models page.request.get. -/
def processDownloads (fetch : String → FetchResp) (parseTime : String → Int) (force : Bool) :
    List DlEntry → FS → Totals → DlResult
  | [], fs, t => ⟨fs, t, [], false⟩
  | e :: rest, fs, t =>
    let doFetch : DlResult :=
      let resp := fetch e.url
      if resp.status ≠ 200 then
        ⟨fs, t, [.fetched e.url, .authError resp.status], true⟩
      else
        let fs2 := fs.update e.path ⟨parseTime e.created, resp.body⟩
        let r := processDownloads fetch parseTime force rest fs2
          { t with downloadedFiles := t.downloadedFiles + 1,
                   downloadedSize := t.downloadedSize + e.size }
        ⟨r.fs, r.totals, .fetched e.url :: .downloaded e.path :: r.trace, r.aborted⟩
    match fs e.path, force with
    | some fd, false =>
      if |fd.mtime - parseTime e.created| < 1 then
        let r := processDownloads fetch parseTime force rest fs
          { t with skippedFiles := t.skippedFiles + 1 }
        ⟨r.fs, r.totals, .skippedTs e.path :: r.trace, r.aborted⟩
      else doFetch
    | _, _ => doFetch

/-- The fetch branch of the download loop (the body below the skip
check), spelled out as a named function for use in proof statements:
fetch the url, abort everything on a non-200 status, otherwise write the
file, stamp its mtime with the parsed created value, and continue with
the remaining queue and bumped counters.  Definitionally equal to the
inner doFetch of processDownloads. -/
def fetchArm (fetch : String → FetchResp) (parseTime : String → Int) (force : Bool)
    (e : DlEntry) (rest : List DlEntry) (fs : FS) (t : Totals) : DlResult :=
  let resp := fetch e.url
  if resp.status ≠ 200 then
    ⟨fs, t, [.fetched e.url, .authError resp.status], true⟩
  else
    let fs2 := fs.update e.path ⟨parseTime e.created, resp.body⟩
    let r := processDownloads fetch parseTime force rest fs2
      { t with downloadedFiles := t.downloadedFiles + 1,
               downloadedSize := t.downloadedSize + e.size }
    ⟨r.fs, r.totals, .fetched e.url :: .downloaded e.path :: r.trace, r.aborted⟩

/-- One attachment element of a parsed manifest: the name, id, size and
created attributes, each None when absent.  A present size attribute is
modelled already converted by int() (a non-numeric size, which would
raise, is outside the model). -/
structure AttachElem where
  name : Option String
  id : Option String
  size : Option Nat
  created : Option String
deriving DecidableEq

/-- attachment.attrib.get of size with default 0. -/
def attSize (a : AttachElem) : Nat := a.size.getD 0

/-- The download url built for a well-formed entry, with the name
percent-encoded by the collaborator quoteFn. -/
def buildUrl (quoteFn : String → String) (baseUrl aid nm : String) : String :=
  baseUrl ++ "/secure/attachment/" ++ aid ++ "/" ++ quoteFn nm

/-- The target path for a well-formed entry, rooted next to the XML
file. -/
def buildPath (dir issueKey aid nm : String) : String :=
  dir ++ "/attachments/" ++ issueKey ++ "/ID-" ++ aid ++ "__" ++ nm

/-- The per-attachment queueing step of main: always add the size to the
estimate, reject the entry with the malformed log line when name, id or
created is missing or empty, otherwise log the queued lines and, outside
dry-run mode, append a download entry.  Returns (size added to estimate,
log events, queued downloads). -/
def queueEntry (quoteFn : String → String) (baseUrl dir issueKey : String) (dryRun : Bool)
    (a : AttachElem) : Nat × List Ev × List DlEntry :=
  match a.name, a.id, a.created with
  | some nm, some aid, some cr =>
    if strEmpty nm || strEmpty aid || strEmpty cr then (attSize a, [.malformed], [])
    else
      let url := buildUrl quoteFn baseUrl aid nm
      let dls : List DlEntry :=
        if dryRun then [] else [⟨url, buildPath dir issueKey aid nm, cr, attSize a⟩]
      (attSize a, [.queued nm url (attSize a)], dls)
  | _, _, _ => (attSize a, [.malformed], [])

/-- The queueing loop over all attachment elements of one manifest. -/
def queueEntries (quoteFn : String → String) (baseUrl dir issueKey : String) (dryRun : Bool) :
    List AttachElem → Nat × List Ev × List DlEntry
  | [] => (0, [], [])
  | a :: rest =>
    let q := queueEntry quoteFn baseUrl dir issueKey dryRun a
    let qs := queueEntries quoteFn baseUrl dir issueKey dryRun rest
    (q.1 + qs.1, q.2.1 ++ qs.2.1, q.2.2 ++ qs.2.2)

/-- A manifest document as the tool sees it: either the file was missing
or ET.parse raised (both cases skip the file after a log line), or it
parsed, yielding the text of the first key element (None when the
element or its text is absent, which raises AttributeError, caught and
skipped) and the list of attachment elements. -/
inductive ManifestDoc where
  | parseError
  | parsed (key : Option String) (attachments : List AttachElem)
deriving DecidableEq

/-- One input file: the directory containing it and its parsed
content. -/
structure SrcFile where
  dir : String
  doc : ManifestDoc
deriving DecidableEq

/-- Processing of one XML file by main: skip on parse failure, missing
key, empty stripped key, or empty attachment list; otherwise queue the
entries (accumulating the size estimate) and, outside dry-run mode and
with a non-empty queue, run the download loop. -/
def processFile (fetch : String → FetchResp) (parseTime : String → Int)
    (quoteFn : String → String) (dryRun force : Bool) (baseUrl : String)
    (sf : SrcFile) (fs : FS) (t : Totals) : DlResult :=
  match sf.doc with
  | .parseError => ⟨fs, t, [], false⟩
  | .parsed key atts =>
    match key with
    | none => ⟨fs, t, [], false⟩
    | some k0 =>
      let k := pyStrip k0
      if strEmpty k then ⟨fs, t, [], false⟩
      else if atts.isEmpty then ⟨fs, t, [], false⟩
      else
        let q := queueEntries quoteFn baseUrl sf.dir k dryRun atts
        let t1 := { t with estimatedSize := t.estimatedSize + q.1 }
        if !dryRun && !q.2.2.isEmpty then
          let r := processDownloads fetch parseTime force q.2.2 fs t1
          ⟨r.fs, r.totals, q.2.1 ++ r.trace, r.aborted⟩
        else ⟨fs, t1, q.2.1, false⟩

/-- The loop of main over all resolved input files.  A fatal abort
(exit(1)) inside one file stops the whole invocation; otherwise the next
file continues with the updated filesystem and counters. -/
def runFiles (fetch : String → FetchResp) (parseTime : String → Int)
    (quoteFn : String → String) (dryRun force : Bool) (baseUrl : String) :
    List SrcFile → FS → Totals → DlResult
  | [], fs, t => ⟨fs, t, [], false⟩
  | f :: rest, fs, t =>
    let r := processFile fetch parseTime quoteFn dryRun force baseUrl f fs t
    if r.aborted then r
    else
      let r2 := runFiles fetch parseTime quoteFn dryRun force baseUrl rest r.fs r.totals
      ⟨r2.fs, r2.totals, r.trace ++ r2.trace, r2.aborted⟩

/-- The total disk space figure printed at the end of a dry run: the
final value of total_estimated_size.  The fetch and parseTime
collaborators are irrelevant in dry-run mode (no download entry is ever
queued) and are fixed to dummies. -/
def dryRunEstimate (quoteFn : String → String) (baseUrl : String) (files : List SrcFile) : Nat :=
  (runFiles (fun _ => ⟨200, 0⟩) (fun _ => 0) quoteFn true false baseUrl files
    (fun _ => none) Totals.zero).totals.estimatedSize

/-- The dry-run total as claim C10 words it: the sum of the size
attributes of every attachment element in every successfully parsed
manifest (including malformed entries), an absent size contributing
zero.  This definition follows the claim wording, to be compared with
the behaviour of the code model. -/
def claimedDryRunSize (files : List SrcFile) : Nat :=
  (files.map (fun sf =>
    match sf.doc with
    | .parseError => 0
    | .parsed _ atts => (atts.map attSize).sum)).sum

/-- The sizes one file actually contributes to the estimate: all of its
attachment sizes, but only when the file parses, yields a key whose
stripped text is non-empty, and has at least one attachment element. -/
def processedManifestSize (sf : SrcFile) : Nat :=
  match sf.doc with
  | .parseError => 0
  | .parsed none _ => 0
  | .parsed (some k0) atts =>
    if strEmpty (pyStrip k0) then 0
    else if atts.isEmpty then 0
    else (atts.map attSize).sum

/-- A byte-fetch collaborator that always answers 200, used in concrete
instantiations. -/
def fetchOk : String → FetchResp := fun _ => ⟨200, 0⟩

/-- A byte-fetch collaborator that answers 500 on the url of dlB and 200
elsewhere, used in concrete instantiations. -/
def fetchBadB : String → FetchResp := fun u => if u = "ub" then ⟨500, 0⟩ else ⟨200, 0⟩

/-- A timestamp-parsing collaborator sending every created string to
time zero, used in concrete instantiations. -/
def ptZero : String → Int := fun _ => 0

/-- The identity percent-encoder, used in concrete instantiations. -/
def quoteId : String → String := fun s => s

/-- The empty filesystem. -/
def fsEmpty : FS := fun _ => none

/-- A filesystem holding exactly one file at path pa with mtime zero,
used in concrete instantiations. -/
def fsOnlyPa : FS := fun q => if q = "pa" then some ⟨0, 7⟩ else none

/-- Queued download entries used in concrete instantiations. -/
def dlA : DlEntry := ⟨"ua", "pa", "ca", 3⟩

/-- A second queued download entry used in concrete instantiations. -/
def dlB : DlEntry := ⟨"ub", "pb", "cb", 4⟩

/-- A third queued download entry used in concrete instantiations. -/
def dlC : DlEntry := ⟨"uc", "pc", "cc", 5⟩

/-- A malformed attachment element (no name attribute) used in concrete
instantiations. -/
def attMal : AttachElem := ⟨none, some "1", some 100, some "c"⟩

/-- A well-formed attachment element used in concrete instantiations. -/
def attOk : AttachElem := ⟨some "f", some "2", some 5, some "cr"⟩

/-- The observable outcome of a download-loop run: counters, trace and
abort flag (everything except the filesystem contents). -/
def obs (r : DlResult) : Totals × List Ev × Bool := (r.totals, r.trace, r.aborted)

/-- The modification-time projection of a filesystem, the only part of
the state the skip decision reads. -/
def mtimes (fs : FS) (p : String) : Option Int := (fs p).map FileData.mtime

end Attachments

/-! ### Theorems -/

open FetchIssues Attachments

/-- Helper: a list whose getLast? we take, with a cons in front. -/
theorem getLast?_cons_ne {α : Type} (a : α) (l : List α) (h : l ≠ []) :
    (a :: l).getLast? = l.getLast? := by
  cases l with
  | nil => exact absurd rfl h
  | cons b bs => simp [List.getLast?]

/-- Helper: the range-adjustment loop only ever moves the window end to
values at or beyond the fixed start. -/
theorem adjustLoop_le (count : Nat → Nat → Nat) (s : Nat) :
    ∀ fuel e w, adjustLoop count s e fuel = some w → s ≤ e → s ≤ w := by
  intro fuel
  induction fuel with
  | zero => intro e w h _; simp [adjustLoop] at h
  | succ n ih =>
    intro e w h hse
    rw [adjustLoop] at h
    by_cases h0 : count s e = 0
    · simp [h0] at h; omega
    · by_cases hgt : RESULT_THRESHOLD < count s e
      · simp [h0, hgt] at h
        exact ih _ w h (Nat.le_add_right s _)
      · simp [h0, hgt] at h; omega

/-- Helper: once the current start has reached the end of the span, the
outer date loop stops with no further windows. -/
theorem partitionWindows_done (count : Nat → Nat → Nat) (s e fuel : Nat) (h : ¬ s < e) :
    partitionWindows count s e fuel = some [] := by
  cases fuel <;> simp [partitionWindows, h]

/-- Helper: structure of the window list produced by the outer date loop
of scrape_project, by induction on the fuel: the list is non-empty,
starts at the start of the span, is a contiguous chain of windows of
non-negative width whose starts never precede the span start, and its
last window ends at or beyond the end of the span, covering every point
of the span. -/
theorem partitionWindows_spec (count : Nat → Nat → Nat) (e : Nat) :
    ∀ fuel s ws, partitionWindows count s e fuel = some ws → s < e →
      (∃ w1 tl, ws = (s, w1) :: tl)
      ∧ ws.Chain' (fun a b => a.2 = b.1)
      ∧ (∀ w ∈ ws, w.1 ≤ w.2)
      ∧ (∀ w ∈ ws, s ≤ w.1)
      ∧ ws.Pairwise (fun a b => a.2 ≤ b.1)
      ∧ (∃ wl, ws.getLast? = some wl ∧ e ≤ wl.2)
      ∧ (∀ x, s ≤ x → x < e → ∃ w ∈ ws, w.1 ≤ x ∧ x < w.2) := by
  intro fuel
  induction fuel with
  | zero => intro s ws h hlt; simp [partitionWindows, hlt] at h
  | succ n ih =>
    intro s ws h hlt
    rw [partitionWindows, if_pos hlt] at h
    cases hadj : adjustLoop count s (s + initialDelta) (n + 1) with
    | none => rw [hadj] at h; cases h
    | some w =>
      rw [hadj] at h
      dsimp only at h
      have hsw : s ≤ w := adjustLoop_le count s _ _ w hadj (Nat.le_add_right s _)
      cases hrec : partitionWindows count w e n with
      | none => rw [hrec] at h; cases h
      | some ws1 =>
        rw [hrec] at h
        dsimp only at h
        have hws : ws = (s, w) :: ws1 := by
          cases h; rfl
        subst hws
        by_cases hwe : w < e
        · obtain ⟨⟨w1, tl, hhd⟩, hch, hwid, hst, hpw, ⟨wl, hlast, hle⟩, hcov⟩ := ih w ws1 hrec hwe
          have hne : ws1 ≠ [] := by rw [hhd]; simp
          refine ⟨⟨w, ws1, rfl⟩, ?_, ?_, ?_, ?_, ?_, ?_⟩
          · rw [hhd]
            exact List.Chain'.cons rfl (hhd ▸ hch)
          · intro x hx
            rcases List.mem_cons.mp hx with h1 | h2
            · subst h1; exact hsw
            · exact hwid x h2
          · intro x hx
            rcases List.mem_cons.mp hx with h1 | h2
            · subst h1; exact Nat.le_refl s
            · exact Nat.le_trans hsw (hst x h2)
          · refine List.Pairwise.cons ?_ hpw
            intro b hb
            exact hst b hb
          · refine ⟨wl, ?_, hle⟩
            rw [getLast?_cons_ne _ _ hne]
            exact hlast
          · intro x hsx hxe
            by_cases hxw : x < w
            · exact ⟨(s, w), List.mem_cons_self _ _, hsx, hxw⟩
            · obtain ⟨w2, hm, hw2⟩ := hcov x (Nat.le_of_not_lt hxw) hxe
              exact ⟨w2, List.mem_cons_of_mem _ hm, hw2⟩
        · have hnil : ws1 = [] := by
            have := partitionWindows_done count w e n hwe
            rw [hrec] at this
            cases this; rfl
          subst hnil
          have hew : e ≤ w := Nat.le_of_not_lt hwe
          refine ⟨⟨w, [], rfl⟩, ?_, ?_, ?_, ?_, ⟨(s, w), rfl, hew⟩, ?_⟩
          · simp
          · intro x hx
            rcases List.mem_singleton.mp hx with h1
            subst h1; exact hsw
          · intro x hx
            rcases List.mem_singleton.mp hx with h1
            subst h1; exact Nat.le_refl s
          · simp
          · intro x hsx hxe
            exact ⟨(s, w), List.mem_singleton.mpr rfl, hsx, Nat.lt_of_lt_of_le hxe hew⟩

/-- C1: for a span with start before end, the query windows produced by
scrape_project are contiguous (each end equals the next start),
non-overlapping, and the first starts at the span start; but the union
of the windows is in general a proper superset of the span, because the
code never clamps the 180-day candidate window to the span end.  The
amended statement proved here: the last window ends at or beyond the
span end and the windows cover every point of the span. -/
theorem scrape_windows_contiguous_cover (count : Nat → Nat → Nat) (s e fuel : Nat)
    (ws : List (Nat × Nat)) (hspan : s < e)
    (h : partitionWindows count s e fuel = some ws) :
    ws ≠ []
    ∧ (∃ w1 tl, ws = (s, w1) :: tl)
    ∧ ws.Chain' (fun a b => a.2 = b.1)
    ∧ (∀ w ∈ ws, w.1 ≤ w.2)
    ∧ ws.Pairwise (fun a b => a.2 ≤ b.1)
    ∧ (∃ wl, ws.getLast? = some wl ∧ e ≤ wl.2)
    ∧ (∀ x, s ≤ x → x < e → ∃ w ∈ ws, w.1 ≤ x ∧ x < w.2) := by
  obtain ⟨⟨w1, tl, hhd⟩, hch, hwid, hst, hpw, hlast, hcov⟩ :=
    partitionWindows_spec count e fuel s ws h hspan
  exact ⟨by rw [hhd]; simp, ⟨w1, tl, hhd⟩, hch, hwid, hpw, hlast, hcov⟩

/-- Witness for C1 at a concrete input: a one-day span with a constant
match count of one produces the single window from zero to 180 days. -/
theorem scrape_windows_contiguous_cover_witness :
    [((0 : Nat), (180 * microsecondsPerDay : Nat))] ≠ []
    ∧ (∃ w1 tl, [((0 : Nat), 180 * microsecondsPerDay)] = (0, w1) :: tl)
    ∧ List.Chain' (fun (a b : Nat × Nat) => a.2 = b.1) [(0, 180 * microsecondsPerDay)]
    ∧ (∀ w ∈ [((0 : Nat), 180 * microsecondsPerDay)], w.1 ≤ w.2)
    ∧ List.Pairwise (fun (a b : Nat × Nat) => a.2 ≤ b.1) [(0, 180 * microsecondsPerDay)]
    ∧ (∃ wl, [((0 : Nat), 180 * microsecondsPerDay)].getLast? = some wl ∧ microsecondsPerDay ≤ wl.2)
    ∧ (∀ x, 0 ≤ x → x < microsecondsPerDay →
        ∃ w ∈ [((0 : Nat), 180 * microsecondsPerDay)], w.1 ≤ x ∧ x < w.2) :=
  scrape_windows_contiguous_cover (fun _ _ => 1) 0 microsecondsPerDay 3
    [(0, 180 * microsecondsPerDay)] (by decide) (by decide)

/-- Counterexample to C1 as stated: over the one-day span from 0 to
86400000000 microseconds with a constant match count of one, the code
produces the single window (0, 180 days); its end is far beyond the
span end, so the union of the windows does not equal the span and the
last window does not end at the span end. -/
theorem scrape_windows_overshoot_cex :
    partitionWindows (fun _ _ => 1) 0 microsecondsPerDay 3
      = some [(0, 180 * microsecondsPerDay)]
    ∧ ¬ ((180 * microsecondsPerDay : Nat) = microsecondsPerDay) := by
  exact ⟨by decide, by decide⟩

/-- C2 (amended): whenever the match count of the candidate window
exceeds RESULT_THRESHOLD, the loop halves the width keeping the start
fixed and re-queries; and every window the loop accepts reports a count
at most RESULT_THRESHOLD.  The code enforces no one-day minimum
granularity and never accepts an over-threshold window (see the
counterexample for the claimed minimum-granularity acceptance). -/
theorem adjust_halving_accepts_bounded (count : Nat → Nat → Nat) (s e w fuel : Nat) :
    (RESULT_THRESHOLD < count s e →
      adjustLoop count s e (fuel + 1) = adjustLoop count s (s + halveDelta (e - s)) fuel)
    ∧ (adjustLoop count s e fuel = some w → count s w ≤ RESULT_THRESHOLD) := by
  constructor
  · intro hgt
    have h0 : ¬ (count s e = 0) := by omega
    rw [adjustLoop]
    simp [h0, hgt]
  · intro h
    induction fuel generalizing e with
    | zero => simp [adjustLoop] at h
    | succ n ih =>
      rw [adjustLoop] at h
      by_cases h0 : count s e = 0
      · simp [h0] at h
        subst h; omega
      · by_cases hgt : RESULT_THRESHOLD < count s e
        · simp [h0, hgt] at h
          exact ih _ h
        · simp [h0, hgt] at h
          subst h; omega

/-- Witness for C2 at a concrete input: with a count oracle reporting
1000 for windows wider than one day and 300 otherwise, the first
candidate (width 180 days) is halved, and the loop finally accepts the
window end 60750000000 (width about 0.7 days), whose count is within
the threshold. -/
theorem adjust_halving_accepts_bounded_witness :
    (adjustLoop (fun s e => if microsecondsPerDay < e - s then 1000 else 300) 0
        (180 * microsecondsPerDay) 20
      = adjustLoop (fun s e => if microsecondsPerDay < e - s then 1000 else 300) 0
        (0 + halveDelta (180 * microsecondsPerDay - 0)) 19)
    ∧ (if microsecondsPerDay < (60750000000 : Nat) - 0 then 1000 else 300) ≤ RESULT_THRESHOLD :=
  ⟨(adjust_halving_accepts_bounded (fun s e => if microsecondsPerDay < e - s then 1000 else 300)
      0 (180 * microsecondsPerDay) 0 19).1 (by decide),
   (adjust_halving_accepts_bounded (fun s e => if microsecondsPerDay < e - s then 1000 else 300)
      0 (180 * microsecondsPerDay) 60750000000 20).2 (by decide)⟩

set_option maxRecDepth 4000 in
/-- Counterexample to C2 as stated: the claim says the halving stops
once the window width reaches one day, accepting the window with a
warning.  With a count oracle constantly above the threshold the loop
never accepts: starting from a one-day window (already at the claimed
minimum granularity) it keeps halving without accepting, and from the
initial 180-day window 60 iterations (far more than the 8 needed to
shrink below one day) still accept nothing; by the acceptance bound of
the main theorem no amount of fuel can make this oracle accept. -/
theorem adjust_no_min_granularity_cex :
    adjustLoop (fun _ _ => 1000) 0 microsecondsPerDay 60 = none
    ∧ adjustLoop (fun _ _ => 1000) 0 (180 * microsecondsPerDay) 60 = none := by
  exact ⟨by decide, by decide⟩

/-- Helper: the ordinal comparison used by the sink sort is transitive. -/
theorem ordLe_trans (a b c : IssueRec) :
    (decide (a.ordinal ≤ b.ordinal)) = true → (decide (b.ordinal ≤ c.ordinal)) = true →
    (decide (a.ordinal ≤ c.ordinal)) = true := by
  simp only [decide_eq_true_eq]
  omega

/-- Helper: the ordinal comparison used by the sink sort is total. -/
theorem ordLe_total (a b : IssueRec) :
    ((decide (a.ordinal ≤ b.ordinal)) || (decide (b.ordinal ≤ a.ordinal))) = true := by
  simp only [Bool.or_eq_true, decide_eq_true_eq]
  omega

/-- C6 (amended): before writing, the record sink sorts the accumulated
records by ordinal ascending (a stable sort, no deduplication), then
rewrites the full table as one header row followed by one row per
record, so the data rows are ordinal-ascending regardless of the order
in which windows and pages delivered the records.  Duplicates are kept
(see the counterexample). -/
theorem record_sink_sorted_output (l : List IssueRec) :
    commitRecords l = headerRow :: (sortIssues l).map recToRow
    ∧ (sortIssues l).Perm l
    ∧ (sortIssues l).Pairwise (fun a b => a.ordinal ≤ b.ordinal)
    ∧ (commitRecords l).length = l.length + 1 := by
  refine ⟨rfl, List.mergeSort_perm l _, ?_, ?_⟩
  · have h := @List.sorted_mergeSort IssueRec (fun a b => decide (a.ordinal ≤ b.ordinal))
      ordLe_trans ordLe_total l
    exact h.imp (fun hab => of_decide_eq_true hab)
  · have hlen : (sortIssues l).length = l.length := (List.mergeSort_perm l _).length_eq
    simp [commitRecords, hlen]

/-- Counterexample to C6 as stated: the sink does not deduplicate.  A
record delivered twice appears twice in the output table (three rows
including the header), where deduplication would write it once. -/
theorem record_sink_no_dedup_cex :
    commitRecords [⟨1, "K", "t", "u"⟩, ⟨1, "K", "t", "u"⟩]
      = headerRow :: recToRow ⟨1, "K", "t", "u"⟩ :: recToRow ⟨1, "K", "t", "u"⟩ :: [] := by
  have h : sortIssues [⟨1, "K", "t", "u"⟩, ⟨1, "K", "t", "u"⟩]
      = [⟨1, "K", "t", "u"⟩, ⟨1, "K", "t", "u"⟩] :=
    List.mergeSort_of_sorted (by decide)
  simp [commitRecords, h]

/-- Helper: the size added to the estimate by the queueing loop is the
sum of the size attributes of all attachment elements, malformed ones
included, an absent size contributing zero. -/
theorem queueEntries_estimate (quoteFn : String → String) (baseUrl dir key : String)
    (dryRun : Bool) : ∀ atts : List AttachElem,
    (queueEntries quoteFn baseUrl dir key dryRun atts).1 = (atts.map attSize).sum := by
  intro atts
  induction atts with
  | nil => rfl
  | cons a rest ih =>
    rw [queueEntries]
    simp only [List.map_cons, List.sum_cons, ih]
    congr 1
    obtain ⟨nm, aid, sz, cr⟩ := a
    cases nm <;> cases aid <;> cases cr <;> simp [queueEntry]
    split <;> rfl

/-- Helper: in dry-run mode the queueing loop queues no downloads. -/
theorem queueEntries_dryRun_empty (quoteFn : String → String) (baseUrl dir key : String) :
    ∀ atts : List AttachElem,
    (queueEntries quoteFn baseUrl dir key true atts).2.2 = [] := by
  intro atts
  induction atts with
  | nil => rfl
  | cons a rest ih =>
    rw [queueEntries]
    simp only [ih, List.append_nil]
    obtain ⟨nm, aid, sz, cr⟩ := a
    cases nm <;> cases aid <;> cases cr <;> simp [queueEntry]
    split <;> rfl

/-- Helper: one-step unfolding of the download loop on the empty
queue. -/
theorem pd_nil (fetch : String → FetchResp) (pt : String → Int) (force : Bool)
    (fs : FS) (t : Totals) :
    processDownloads fetch pt force [] fs t = ⟨fs, t, [], false⟩ := rfl

/-- Helper: one-step unfolding of the download loop when the target file
is absent: straight to the fetch branch. -/
theorem pd_cons_absent (fetch : String → FetchResp) (pt : String → Int) (force : Bool)
    (e : DlEntry) (rest : List DlEntry) (fs : FS) (t : Totals)
    (hfs : fs e.path = none) :
    processDownloads fetch pt force (e :: rest) fs t = fetchArm fetch pt force e rest fs t := by
  rw [processDownloads.eq_def]
  dsimp only
  rw [hfs]
  cases force <;> rfl

/-- Helper: one-step unfolding of the download loop under force: the
skip check is bypassed even when the target file exists. -/
theorem pd_cons_force (fetch : String → FetchResp) (pt : String → Int)
    (e : DlEntry) (rest : List DlEntry) (fs : FS) (t : Totals) (fd : FileData)
    (hfs : fs e.path = some fd) :
    processDownloads fetch pt true (e :: rest) fs t = fetchArm fetch pt true e rest fs t := by
  rw [processDownloads.eq_def]
  dsimp only
  rw [hfs]
  rfl

/-- Helper: one-step unfolding of the download loop when the target file
exists but its mtime is outside the 1-second tolerance: the entry is
re-fetched. -/
theorem pd_cons_stale (fetch : String → FetchResp) (pt : String → Int)
    (e : DlEntry) (rest : List DlEntry) (fs : FS) (t : Totals) (fd : FileData)
    (hfs : fs e.path = some fd) (htol : ¬ |fd.mtime - pt e.created| < 1) :
    processDownloads fetch pt false (e :: rest) fs t = fetchArm fetch pt false e rest fs t := by
  rw [processDownloads.eq_def]
  dsimp only
  rw [hfs]
  dsimp only
  rw [if_neg htol]
  rfl

/-- Helper: one-step unfolding of the download loop when the target file
exists with a matching mtime and force is off: the entry is skipped, the
filesystem untouched, no fetch happens. -/
theorem pd_cons_skip (fetch : String → FetchResp) (pt : String → Int)
    (e : DlEntry) (rest : List DlEntry) (fs : FS) (t : Totals) (fd : FileData)
    (hfs : fs e.path = some fd) (htol : |fd.mtime - pt e.created| < 1) :
    processDownloads fetch pt false (e :: rest) fs t
      = ⟨(processDownloads fetch pt false rest fs
            { t with skippedFiles := t.skippedFiles + 1 }).fs,
         (processDownloads fetch pt false rest fs
            { t with skippedFiles := t.skippedFiles + 1 }).totals,
         .skippedTs e.path :: (processDownloads fetch pt false rest fs
            { t with skippedFiles := t.skippedFiles + 1 }).trace,
         (processDownloads fetch pt false rest fs
            { t with skippedFiles := t.skippedFiles + 1 }).aborted⟩ := by
  rw [processDownloads.eq_def]
  dsimp only
  rw [hfs]
  dsimp only
  rw [if_pos htol]

/-- Helper: one-step unfolding of the fetch branch on a non-200 status:
the whole invocation aborts with the filesystem and counters as they
stand. -/
theorem fetchArm_fatal (fetch : String → FetchResp) (pt : String → Int) (force : Bool)
    (e : DlEntry) (rest : List DlEntry) (fs : FS) (t : Totals)
    (hst : (fetch e.url).status ≠ 200) :
    fetchArm fetch pt force e rest fs t
      = ⟨fs, t, [.fetched e.url, .authError (fetch e.url).status], true⟩ := by
  rw [fetchArm]
  dsimp only
  rw [if_pos hst]

/-- Helper: one-step unfolding of the fetch branch on a 200 status: the
body is written, the mtime stamped with the parsed created value, and
the loop continues on the remaining queue. -/
theorem fetchArm_ok (fetch : String → FetchResp) (pt : String → Int) (force : Bool)
    (e : DlEntry) (rest : List DlEntry) (fs : FS) (t : Totals)
    (hst : (fetch e.url).status = 200) :
    fetchArm fetch pt force e rest fs t
      = ⟨(processDownloads fetch pt force rest
            (fs.update e.path ⟨pt e.created, (fetch e.url).body⟩)
            { t with downloadedFiles := t.downloadedFiles + 1,
                     downloadedSize := t.downloadedSize + e.size }).fs,
         (processDownloads fetch pt force rest
            (fs.update e.path ⟨pt e.created, (fetch e.url).body⟩)
            { t with downloadedFiles := t.downloadedFiles + 1,
                     downloadedSize := t.downloadedSize + e.size }).totals,
         .fetched e.url :: .downloaded e.path :: (processDownloads fetch pt force rest
            (fs.update e.path ⟨pt e.created, (fetch e.url).body⟩)
            { t with downloadedFiles := t.downloadedFiles + 1,
                     downloadedSize := t.downloadedSize + e.size }).trace,
         (processDownloads fetch pt force rest
            (fs.update e.path ⟨pt e.created, (fetch e.url).body⟩)
            { t with downloadedFiles := t.downloadedFiles + 1,
                     downloadedSize := t.downloadedSize + e.size }).aborted⟩ := by
  rw [fetchArm]
  dsimp only
  rw [if_neg (by simp [hst])]

/-- Helper: in dry-run mode processing one file touches neither the
filesystem nor the download counters, never aborts, and adds exactly the
processedManifestSize of the file to the size estimate. -/
theorem processFile_dryRun (fetch : String → FetchResp) (pt : String → Int)
    (quoteFn : String → String) (force : Bool) (baseUrl : String) (sf : SrcFile)
    (fs : FS) (t : Totals) :
    (processFile fetch pt quoteFn true force baseUrl sf fs t).fs = fs
    ∧ (processFile fetch pt quoteFn true force baseUrl sf fs t).aborted = false
    ∧ (processFile fetch pt quoteFn true force baseUrl sf fs t).totals
        = { t with estimatedSize := t.estimatedSize + processedManifestSize sf } := by
  obtain ⟨dir, doc⟩ := sf
  cases doc with
  | parseError => exact ⟨rfl, rfl, rfl⟩
  | parsed key atts =>
    cases key with
    | none => exact ⟨rfl, rfl, rfl⟩
    | some k0 =>
      by_cases hk : strEmpty (pyStrip k0) = true
      · refine ⟨?_, ?_, ?_⟩ <;> simp [processFile, processedManifestSize, hk]
      · rw [Bool.not_eq_true] at hk
        by_cases ha : atts.isEmpty = true
        · refine ⟨?_, ?_, ?_⟩ <;> simp [processFile, processedManifestSize, hk, ha]
        · rw [Bool.not_eq_true] at ha
          refine ⟨?_, ?_, ?_⟩ <;>
            simp [processFile, processedManifestSize, hk, ha,
              queueEntries_dryRun_empty, queueEntries_estimate]

/-- C10 (amended): in dry-run mode the reported total estimated disk
size equals the sum of the size attributes of every attachment element
(malformed entries included, an absent size contributing zero) over
every manifest that parses, yields a non-empty stripped issue key, and
contains at least one attachment element; manifests that parse but lack
a usable key, like manifests that fail to parse, contribute nothing. -/
theorem dry_run_estimate_sums (fetch : String → FetchResp) (pt : String → Int)
    (quoteFn : String → String) (force : Bool) (baseUrl : String) :
    ∀ (files : List SrcFile) (fs : FS) (t : Totals),
    (runFiles fetch pt quoteFn true force baseUrl files fs t).totals.estimatedSize
      = t.estimatedSize + (files.map processedManifestSize).sum := by
  intro files
  induction files with
  | nil => intro fs t; rfl
  | cons f rest ih =>
    intro fs t
    obtain ⟨h1, h2, h3⟩ := processFile_dryRun fetch pt quoteFn force baseUrl f fs t
    rw [runFiles]
    simp only [h2, Bool.false_eq_true, if_false]
    rw [ih, h3]
    simp [List.map_cons, List.sum_cons, Nat.add_assoc]

/-- Counterexample to C10 as stated: a manifest that parses successfully
but has no issue key element is skipped before its attachment loop, so
its attachment sizes are never added; the claim says every successfully
parsed manifest contributes all its attachment sizes.  Here the only
manifest parses, carries one well-formed attachment of size 100, but
has no key: the code reports 0 while the claimed total is 100. -/
theorem dry_run_keyless_manifest_cex :
    dryRunEstimate (fun s => s) ""
      [⟨"d", .parsed none [⟨some "a", some "1", some 100, some "c"⟩]⟩] = 0
    ∧ claimedDryRunSize
      [⟨"d", .parsed none [⟨some "a", some "1", some 100, some "c"⟩]⟩] = 100 := by
  exact ⟨rfl, rfl⟩

/-- Helper: an attachment element with a missing or empty name, id or
created attribute is rejected by the queueing step: its size still goes
into the estimate, the malformed line is logged, nothing is queued. -/
theorem queueEntry_malformed (quoteFn : String → String) (baseUrl dir key : String)
    (dryRun : Bool) (a : AttachElem)
    (hmal : pyTruthy a.name = false ∨ pyTruthy a.id = false ∨ pyTruthy a.created = false) :
    queueEntry quoteFn baseUrl dir key dryRun a = (attSize a, [Ev.malformed], []) := by
  obtain ⟨nm, aid, sz, cr⟩ := a
  cases nm with
  | none => rfl
  | some nm =>
    cases aid with
    | none => rfl
    | some aid =>
      cases cr with
      | none => rfl
      | some cr =>
        simp only [pyTruthy, Bool.not_eq_false'] at hmal
        simp only [queueEntry]
        rcases hmal with h | h | h <;>
          simp [strEmpty, h]

/-- Helper: the queueing loop is a homomorphism over list append. -/
theorem queueEntries_append (quoteFn : String → String) (baseUrl dir key : String)
    (dryRun : Bool) : ∀ l1 l2 : List AttachElem,
    queueEntries quoteFn baseUrl dir key dryRun (l1 ++ l2)
      = ((queueEntries quoteFn baseUrl dir key dryRun l1).1
          + (queueEntries quoteFn baseUrl dir key dryRun l2).1,
         (queueEntries quoteFn baseUrl dir key dryRun l1).2.1
          ++ (queueEntries quoteFn baseUrl dir key dryRun l2).2.1,
         (queueEntries quoteFn baseUrl dir key dryRun l1).2.2
          ++ (queueEntries quoteFn baseUrl dir key dryRun l2).2.2) := by
  intro l1 l2
  induction l1 with
  | nil => simp [queueEntries]
  | cons a rest ih =>
    rw [List.cons_append, queueEntries, queueEntries, ih]
    simp [Nat.add_assoc, List.append_assoc]

/-- Helper: the download loop never reads or writes the size estimate,
and its other effects do not depend on it: changing only the
estimatedSize of the starting counters changes only the estimatedSize of
the final counters (to the new starting value). -/
theorem processDownloads_est_irrelevant (fetch : String → FetchResp) (pt : String → Int)
    (force : Bool) : ∀ (entries : List DlEntry) (fs : FS) (t t2 : Totals),
    t2.downloadedFiles = t.downloadedFiles → t2.skippedFiles = t.skippedFiles →
    t2.downloadedSize = t.downloadedSize →
    (processDownloads fetch pt force entries fs t2).fs
        = (processDownloads fetch pt force entries fs t).fs
    ∧ (processDownloads fetch pt force entries fs t2).trace
        = (processDownloads fetch pt force entries fs t).trace
    ∧ (processDownloads fetch pt force entries fs t2).aborted
        = (processDownloads fetch pt force entries fs t).aborted
    ∧ (processDownloads fetch pt force entries fs t2).totals
        = { (processDownloads fetch pt force entries fs t).totals with
            estimatedSize := t2.estimatedSize }
    ∧ (processDownloads fetch pt force entries fs t).totals.estimatedSize
        = t.estimatedSize := by
  intro entries
  induction entries with
  | nil =>
    intro fs t t2 hb hc hd
    refine ⟨rfl, rfl, rfl, ?_, rfl⟩
    obtain ⟨ta, tb, tc, td⟩ := t
    obtain ⟨t2a, t2b, t2c, t2d⟩ := t2
    simp only [pd_nil]
    simp_all
  | cons e rest ih =>
    intro fs t t2 hb hc hd
    have harm : ∀ u u2 : Totals, u2.downloadedFiles = u.downloadedFiles →
        u2.skippedFiles = u.skippedFiles → u2.downloadedSize = u.downloadedSize →
        (fetchArm fetch pt force e rest fs u2).fs = (fetchArm fetch pt force e rest fs u).fs
        ∧ (fetchArm fetch pt force e rest fs u2).trace
            = (fetchArm fetch pt force e rest fs u).trace
        ∧ (fetchArm fetch pt force e rest fs u2).aborted
            = (fetchArm fetch pt force e rest fs u).aborted
        ∧ (fetchArm fetch pt force e rest fs u2).totals
            = { (fetchArm fetch pt force e rest fs u).totals with
                estimatedSize := u2.estimatedSize }
        ∧ (fetchArm fetch pt force e rest fs u).totals.estimatedSize
            = u.estimatedSize := by
      intro u u2 hub huc hud
      by_cases hst : (fetch e.url).status = 200
      · rw [fetchArm_ok fetch pt force e rest fs u hst,
          fetchArm_ok fetch pt force e rest fs u2 hst]
        obtain ⟨h1, h2, h3, h4, h5⟩ := ih
          (fs.update e.path ⟨pt e.created, (fetch e.url).body⟩)
          { u with downloadedFiles := u.downloadedFiles + 1,
                   downloadedSize := u.downloadedSize + e.size }
          { u2 with downloadedFiles := u2.downloadedFiles + 1,
                    downloadedSize := u2.downloadedSize + e.size }
          (by simp [hub]) (by simpa using huc) (by simp [hud])
        exact ⟨h1, by rw [h2], by rw [h3], h4, h5⟩
      · have hst2 : (fetch e.url).status ≠ 200 := hst
        rw [fetchArm_fatal fetch pt force e rest fs u hst2,
          fetchArm_fatal fetch pt force e rest fs u2 hst2]
        refine ⟨rfl, rfl, rfl, ?_, rfl⟩
        obtain ⟨ua, ub, uc, ud⟩ := u
        obtain ⟨u2a, u2b, u2c, u2d⟩ := u2
        simp_all
    cases hfs : fs e.path with
    | none =>
      rw [pd_cons_absent fetch pt force e rest fs t hfs,
        pd_cons_absent fetch pt force e rest fs t2 hfs]
      exact harm t t2 hb hc hd
    | some fd =>
      cases force with
      | true =>
        rw [pd_cons_force fetch pt e rest fs t fd hfs,
          pd_cons_force fetch pt e rest fs t2 fd hfs]
        exact harm t t2 hb hc hd
      | false =>
        by_cases htol : |fd.mtime - pt e.created| < 1
        · rw [pd_cons_skip fetch pt e rest fs t fd hfs htol,
            pd_cons_skip fetch pt e rest fs t2 fd hfs htol]
          obtain ⟨h1, h2, h3, h4, h5⟩ := ih fs
            { t with skippedFiles := t.skippedFiles + 1 }
            { t2 with skippedFiles := t2.skippedFiles + 1 }
            (by simpa using hb) (by simp [hc]) (by simpa using hd)
          exact ⟨h1, by rw [h2], by rw [h3], h4, h5⟩
        · rw [pd_cons_stale fetch pt e rest fs t fd hfs htol,
            pd_cons_stale fetch pt e rest fs t2 fd hfs htol]
          exact harm t t2 hb hc hd

/-- Helper: unfolding of processFile in non-dry-run mode for a parsed
manifest with a usable key and a non-empty attachment list. -/
theorem processFile_main (fetch : String → FetchResp) (pt : String → Int)
    (quoteFn : String → String) (force : Bool) (baseUrl dir key : String)
    (atts : List AttachElem) (fs : FS) (t : Totals)
    (hkey : strEmpty (pyStrip key) = false) (hne : atts.isEmpty = false) :
    processFile fetch pt quoteFn false force baseUrl ⟨dir, .parsed (some key) atts⟩ fs t
      = (if (queueEntries quoteFn baseUrl dir (pyStrip key) false atts).2.2.isEmpty then
          ⟨fs, { t with estimatedSize :=
              t.estimatedSize + (queueEntries quoteFn baseUrl dir (pyStrip key) false atts).1 },
            (queueEntries quoteFn baseUrl dir (pyStrip key) false atts).2.1, false⟩
        else
          ⟨(processDownloads fetch pt force
              (queueEntries quoteFn baseUrl dir (pyStrip key) false atts).2.2 fs
              { t with estimatedSize :=
                  t.estimatedSize + (queueEntries quoteFn baseUrl dir (pyStrip key) false atts).1 }).fs,
           (processDownloads fetch pt force
              (queueEntries quoteFn baseUrl dir (pyStrip key) false atts).2.2 fs
              { t with estimatedSize :=
                  t.estimatedSize + (queueEntries quoteFn baseUrl dir (pyStrip key) false atts).1 }).totals,
           (queueEntries quoteFn baseUrl dir (pyStrip key) false atts).2.1
             ++ (processDownloads fetch pt force
              (queueEntries quoteFn baseUrl dir (pyStrip key) false atts).2.2 fs
              { t with estimatedSize :=
                  t.estimatedSize + (queueEntries quoteFn baseUrl dir (pyStrip key) false atts).1 }).trace,
           (processDownloads fetch pt force
              (queueEntries quoteFn baseUrl dir (pyStrip key) false atts).2.2 fs
              { t with estimatedSize :=
                  t.estimatedSize + (queueEntries quoteFn baseUrl dir (pyStrip key) false atts).1 }).aborted⟩) := by
  by_cases hq : (queueEntries quoteFn baseUrl dir (pyStrip key) false atts).2.2.isEmpty = true
  · simp [processFile, hkey, hne, hq]
  · rw [Bool.not_eq_true] at hq
    simp [processFile, hkey, hne, hq]

/-- C8 (amended): an attachment entry missing id, name, or createdAt is
rejected with the malformed log message and skipped; it is not counted
anywhere in the sync summary (the code keeps no failed counter; only its
size attribute flows into the dry-run estimate), it does not abort the
batch, and it is isolated: the remaining entries are queued, downloaded
and counted exactly as if the malformed entry were absent. -/
theorem malformed_entry_isolated (fetch : String → FetchResp) (pt : String → Int)
    (quoteFn : String → String) (force : Bool) (baseUrl dir key : String)
    (a : AttachElem) (pre post : List AttachElem) (fs : FS) (t : Totals)
    (hmal : pyTruthy a.name = false ∨ pyTruthy a.id = false ∨ pyTruthy a.created = false)
    (hkey : strEmpty (pyStrip key) = false) :
    queueEntry quoteFn baseUrl dir (pyStrip key) false a = (attSize a, [Ev.malformed], [])
    ∧ (queueEntries quoteFn baseUrl dir (pyStrip key) false (pre ++ a :: post)).2.2
        = (queueEntries quoteFn baseUrl dir (pyStrip key) false (pre ++ post)).2.2
    ∧ (queueEntries quoteFn baseUrl dir (pyStrip key) false (pre ++ a :: post)).2.1
        = (queueEntries quoteFn baseUrl dir (pyStrip key) false pre).2.1
          ++ Ev.malformed :: (queueEntries quoteFn baseUrl dir (pyStrip key) false post).2.1
    ∧ (queueEntries quoteFn baseUrl dir (pyStrip key) false (pre ++ a :: post)).1
        = (queueEntries quoteFn baseUrl dir (pyStrip key) false (pre ++ post)).1 + attSize a
    ∧ (processFile fetch pt quoteFn false force baseUrl
          ⟨dir, .parsed (some key) (pre ++ a :: post)⟩ fs t).fs
        = (processFile fetch pt quoteFn false force baseUrl
          ⟨dir, .parsed (some key) (pre ++ post)⟩ fs t).fs
    ∧ (processFile fetch pt quoteFn false force baseUrl
          ⟨dir, .parsed (some key) (pre ++ a :: post)⟩ fs t).aborted
        = (processFile fetch pt quoteFn false force baseUrl
          ⟨dir, .parsed (some key) (pre ++ post)⟩ fs t).aborted
    ∧ (processFile fetch pt quoteFn false force baseUrl
          ⟨dir, .parsed (some key) (pre ++ a :: post)⟩ fs t).totals.downloadedFiles
        = (processFile fetch pt quoteFn false force baseUrl
          ⟨dir, .parsed (some key) (pre ++ post)⟩ fs t).totals.downloadedFiles
    ∧ (processFile fetch pt quoteFn false force baseUrl
          ⟨dir, .parsed (some key) (pre ++ a :: post)⟩ fs t).totals.skippedFiles
        = (processFile fetch pt quoteFn false force baseUrl
          ⟨dir, .parsed (some key) (pre ++ post)⟩ fs t).totals.skippedFiles
    ∧ (processFile fetch pt quoteFn false force baseUrl
          ⟨dir, .parsed (some key) (pre ++ a :: post)⟩ fs t).totals.downloadedSize
        = (processFile fetch pt quoteFn false force baseUrl
          ⟨dir, .parsed (some key) (pre ++ post)⟩ fs t).totals.downloadedSize
    ∧ (processFile fetch pt quoteFn false force baseUrl
          ⟨dir, .parsed (some key) (pre ++ a :: post)⟩ fs t).totals.estimatedSize
        = (processFile fetch pt quoteFn false force baseUrl
          ⟨dir, .parsed (some key) (pre ++ post)⟩ fs t).totals.estimatedSize + attSize a := by
  have hq1 := queueEntry_malformed quoteFn baseUrl dir (pyStrip key) false a hmal
  have hQ1 : queueEntries quoteFn baseUrl dir (pyStrip key) false (pre ++ a :: post)
      = ((queueEntries quoteFn baseUrl dir (pyStrip key) false pre).1
          + (attSize a + (queueEntries quoteFn baseUrl dir (pyStrip key) false post).1),
         (queueEntries quoteFn baseUrl dir (pyStrip key) false pre).2.1
          ++ Ev.malformed :: (queueEntries quoteFn baseUrl dir (pyStrip key) false post).2.1,
         (queueEntries quoteFn baseUrl dir (pyStrip key) false pre).2.2
          ++ (queueEntries quoteFn baseUrl dir (pyStrip key) false post).2.2) := by
    rw [queueEntries_append quoteFn baseUrl dir (pyStrip key) false pre (a :: post)]
    rw [queueEntries, hq1]
    simp
  have hQ2 : queueEntries quoteFn baseUrl dir (pyStrip key) false (pre ++ post)
      = ((queueEntries quoteFn baseUrl dir (pyStrip key) false pre).1
          + (queueEntries quoteFn baseUrl dir (pyStrip key) false post).1,
         (queueEntries quoteFn baseUrl dir (pyStrip key) false pre).2.1
          ++ (queueEntries quoteFn baseUrl dir (pyStrip key) false post).2.1,
         (queueEntries quoteFn baseUrl dir (pyStrip key) false pre).2.2
          ++ (queueEntries quoteFn baseUrl dir (pyStrip key) false post).2.2) :=
    queueEntries_append quoteFn baseUrl dir (pyStrip key) false pre post
  have hdl : (queueEntries quoteFn baseUrl dir (pyStrip key) false (pre ++ a :: post)).2.2
      = (queueEntries quoteFn baseUrl dir (pyStrip key) false (pre ++ post)).2.2 := by
    rw [hQ1, hQ2]
  have hest : (queueEntries quoteFn baseUrl dir (pyStrip key) false (pre ++ a :: post)).1
      = (queueEntries quoteFn baseUrl dir (pyStrip key) false (pre ++ post)).1 + attSize a := by
    rw [hQ1, hQ2]
    dsimp only
    omega
  refine ⟨hq1, hdl, by rw [hQ1], hest, ?_⟩
  by_cases hpp : (pre ++ post).isEmpty = true
  · have hprenil : pre = [] := by
      cases pre with
      | nil => rfl
      | cons x xs => simp at hpp
    have hpostnil : post = [] := by
      subst hprenil
      simp at hpp
      exact hpp
    subst hprenil
    subst hpostnil
    simp only [List.nil_append]
    rw [processFile_main fetch pt quoteFn force baseUrl dir key [a] fs t hkey (by simp)]
    have hqa : queueEntries quoteFn baseUrl dir (pyStrip key) false [a]
        = (attSize a, [Ev.malformed], []) := by
      rw [queueEntries, hq1, queueEntries]
      simp
    rw [hqa]
    simp [processFile, hkey]
  · rw [Bool.not_eq_true] at hpp
    have hne1 : (pre ++ a :: post).isEmpty = false := by
      cases pre <;> simp
    rw [processFile_main fetch pt quoteFn force baseUrl dir key (pre ++ a :: post) fs t hkey hne1,
      processFile_main fetch pt quoteFn force baseUrl dir key (pre ++ post) fs t hkey hpp]
    rw [hdl, hest]
    by_cases hdle : (queueEntries quoteFn baseUrl dir (pyStrip key) false (pre ++ post)).2.2.isEmpty = true
    · simp [hdle, Nat.add_assoc]
    · rw [Bool.not_eq_true] at hdle
      simp only [hdle, Bool.false_eq_true, if_false]
      obtain ⟨g1, g2, g3, g4, g5⟩ := processDownloads_est_irrelevant fetch pt force
        (queueEntries quoteFn baseUrl dir (pyStrip key) false (pre ++ post)).2.2 fs
        { t with estimatedSize :=
            t.estimatedSize + (queueEntries quoteFn baseUrl dir (pyStrip key) false (pre ++ post)).1 }
        { t with estimatedSize :=
            t.estimatedSize + ((queueEntries quoteFn baseUrl dir (pyStrip key) false (pre ++ post)).1
              + attSize a) }
        rfl rfl rfl
      refine ⟨g1, by rw [g3], ?_, ?_, ?_, ?_⟩ <;>
        simp [g4, g5, Nat.add_assoc]

/-- Witness for C8 at a concrete input: a malformed element (no name,
size 100) between an empty prefix and one well-formed element. -/
theorem malformed_entry_isolated_witness :
    pyTruthy attMal.name = false
    ∧ strEmpty (pyStrip "K") = false
    ∧ (queueEntry quoteId "B" "D" (pyStrip "K") false attMal
        = (attSize attMal, [Ev.malformed], [])
      ∧ (queueEntries quoteId "B" "D" (pyStrip "K") false ([] ++ attMal :: [attOk])).2.2
          = (queueEntries quoteId "B" "D" (pyStrip "K") false ([] ++ [attOk])).2.2
      ∧ (queueEntries quoteId "B" "D" (pyStrip "K") false ([] ++ attMal :: [attOk])).2.1
          = (queueEntries quoteId "B" "D" (pyStrip "K") false []).2.1
            ++ Ev.malformed :: (queueEntries quoteId "B" "D" (pyStrip "K") false [attOk]).2.1
      ∧ (queueEntries quoteId "B" "D" (pyStrip "K") false ([] ++ attMal :: [attOk])).1
          = (queueEntries quoteId "B" "D" (pyStrip "K") false ([] ++ [attOk])).1 + attSize attMal
      ∧ (processFile fetchOk ptZero quoteId false false "B"
            ⟨"D", .parsed (some "K") ([] ++ attMal :: [attOk])⟩ fsEmpty Totals.zero).fs
          = (processFile fetchOk ptZero quoteId false false "B"
            ⟨"D", .parsed (some "K") ([] ++ [attOk])⟩ fsEmpty Totals.zero).fs
      ∧ (processFile fetchOk ptZero quoteId false false "B"
            ⟨"D", .parsed (some "K") ([] ++ attMal :: [attOk])⟩ fsEmpty Totals.zero).aborted
          = (processFile fetchOk ptZero quoteId false false "B"
            ⟨"D", .parsed (some "K") ([] ++ [attOk])⟩ fsEmpty Totals.zero).aborted
      ∧ (processFile fetchOk ptZero quoteId false false "B"
            ⟨"D", .parsed (some "K") ([] ++ attMal :: [attOk])⟩ fsEmpty
              Totals.zero).totals.downloadedFiles
          = (processFile fetchOk ptZero quoteId false false "B"
            ⟨"D", .parsed (some "K") ([] ++ [attOk])⟩ fsEmpty Totals.zero).totals.downloadedFiles
      ∧ (processFile fetchOk ptZero quoteId false false "B"
            ⟨"D", .parsed (some "K") ([] ++ attMal :: [attOk])⟩ fsEmpty
              Totals.zero).totals.skippedFiles
          = (processFile fetchOk ptZero quoteId false false "B"
            ⟨"D", .parsed (some "K") ([] ++ [attOk])⟩ fsEmpty Totals.zero).totals.skippedFiles
      ∧ (processFile fetchOk ptZero quoteId false false "B"
            ⟨"D", .parsed (some "K") ([] ++ attMal :: [attOk])⟩ fsEmpty
              Totals.zero).totals.downloadedSize
          = (processFile fetchOk ptZero quoteId false false "B"
            ⟨"D", .parsed (some "K") ([] ++ [attOk])⟩ fsEmpty Totals.zero).totals.downloadedSize
      ∧ (processFile fetchOk ptZero quoteId false false "B"
            ⟨"D", .parsed (some "K") ([] ++ attMal :: [attOk])⟩ fsEmpty
              Totals.zero).totals.estimatedSize
          = (processFile fetchOk ptZero quoteId false false "B"
            ⟨"D", .parsed (some "K") ([] ++ [attOk])⟩ fsEmpty
              Totals.zero).totals.estimatedSize + attSize attMal) :=
  ⟨by decide, by decide,
   malformed_entry_isolated fetchOk ptZero quoteId false "B" "D" "K" attMal [] [attOk]
     fsEmpty Totals.zero (Or.inl (by decide)) (by decide)⟩

/-- Counterexample to C8 as stated: the claim says a malformed entry is
counted as failed in the sync report.  The code keeps no failed counter
at all: processing a manifest whose only attachment element is fully
malformed leaves every counter of the final summary (downloads, skips,
sizes) exactly at its starting value, records nothing but the malformed
log line, and does not abort — the report is indistinguishable from the
report for a manifest with no usable entries. -/
theorem malformed_not_counted_cex :
    (processFile fetchOk ptZero quoteId false false "B"
       ⟨"D", .parsed (some "K") [⟨none, none, none, none⟩]⟩ fsEmpty Totals.zero).totals
      = Totals.zero
    ∧ (processFile fetchOk ptZero quoteId false false "B"
       ⟨"D", .parsed (some "K") [⟨none, none, none, none⟩]⟩ fsEmpty Totals.zero).trace
      = [Ev.malformed]
    ∧ (processFile fetchOk ptZero quoteId false false "B"
       ⟨"D", .parsed (some "K") [⟨none, none, none, none⟩]⟩ fsEmpty Totals.zero).aborted
      = false := by
  refine ⟨?_, ?_, ?_⟩ <;> decide

/-- C9 (amended): in the row-collection loop, a raw row missing any of
the rel attribute (the ordinal), the issue key, or the href is silently
dropped — no warning is printed anywhere in the loop (see the
counterexample for the complete log of a page with a dropped row) — and
dropping is never fatal; rows with all three present are kept in order,
a missing summary becoming the empty string.  The hypothesis asks that
the rel attribute of every kept row parse as an integer, since a
non-numeric rel would raise in int(). -/
theorem rows_missing_fields_dropped (base : String) (rows : List RawRow)
    (hparse : ∀ r ∈ rows, (pyTruthy r.rel && pyTruthy r.key && pyTruthy r.href) = true →
      (pyInt? (r.rel.getD "")).isSome = true) :
    collectRows base rows
      = some ((rows.filter
          (fun r => pyTruthy r.rel && pyTruthy r.key && pyTruthy r.href)).map
          (mkIssueRec base)) := by
  induction rows with
  | nil => rfl
  | cons r rest ih =>
    have hrest : ∀ x ∈ rest, (pyTruthy x.rel && pyTruthy x.key && pyTruthy x.href) = true →
        (pyInt? (x.rel.getD "")).isSome = true :=
      fun x hx => hparse x (List.mem_cons_of_mem r hx)
    by_cases hc : (pyTruthy r.rel && pyTruthy r.key && pyTruthy r.href) = true
    · have hs := hparse r (List.mem_cons_self r rest) hc
      obtain ⟨n, hn⟩ := Option.isSome_iff_exists.mp hs
      rw [collectRows.eq_def]
      dsimp only
      rw [if_pos hc, hn, ih hrest]
      simp [List.filter_cons, hc, mkIssueRec, hn]
    · rw [collectRows.eq_def]
      dsimp only
      rw [if_neg hc, ih hrest]
      simp [List.filter_cons, hc]

/-- Witness for C9 at a concrete input: a page of one well-formed row
followed by one row with no rel attribute keeps exactly the well-formed
row. -/
theorem rows_missing_fields_dropped_witness :
    (∀ r ∈ [rowA, rowNoRel], (pyTruthy r.rel && pyTruthy r.key && pyTruthy r.href) = true →
      (pyInt? (r.rel.getD "")).isSome = true)
    ∧ collectRows "B" [rowA, rowNoRel]
      = some (([rowA, rowNoRel].filter
          (fun r => pyTruthy r.rel && pyTruthy r.key && pyTruthy r.href)).map
          (mkIssueRec "B")) :=
  ⟨by decide, rows_missing_fields_dropped "B" [rowA, rowNoRel] (by decide)⟩

/-- Counterexample to C9 as stated: the claim says a row missing a
required field is dropped with a logged warning.  Running the pagination
loop on a single page holding exactly one such row produces the complete
console output fetching, collected, lastPage — the PageLog type
enumerates every print statement of the loop, and no warning line about
the dropped row exists anywhere in the output. -/
theorem dropped_row_no_warning_cex :
    paginateAux "" (fun _ => ⟨[rowNoRel], false⟩) 5 0 0
      = some ([], [PageLog.fetching 0, PageLog.collected 1 0, PageLog.lastPage]) := by
  decide

/-- Helper: peeling one page off the list of offsets fetched by the
pagination loop. -/
theorem range_map_pageSize (c n : Nat) :
    (List.range (n + 1)).map (fun i => c + PAGE_SIZE * i)
      = c :: (List.range n).map (fun i => c + PAGE_SIZE + PAGE_SIZE * i) := by
  rw [List.range_succ_eq_map]
  simp only [List.map_cons, Nat.mul_zero, Nat.add_zero, List.map_map]
  refine congrArg (fun l => c :: l) ?_
  refine List.map_congr_left ?_
  intro i _
  simp only [Function.comp_apply, Nat.succ_eq_add_one]
  ring

/-- Helper: structure of a pagination run that first stops at page k:
every earlier page is non-empty with a next-page link, page k is empty
or lacks the link, and enough fuel is available; then the loop completes
and fetches exactly the offsets idx, idx + PAGE_SIZE, ...,
idx + PAGE_SIZE * k. -/
theorem paginateAux_visits (base : String) (pg : Nat → PageView) :
    ∀ (k idx acc fuel : Nat),
    (∀ i, i < k → (pg (idx + PAGE_SIZE * i)).rows ≠ []
      ∧ (pg (idx + PAGE_SIZE * i)).navNext = true) →
    ((pg (idx + PAGE_SIZE * k)).rows = [] ∨ (pg (idx + PAGE_SIZE * k)).navNext = false) →
    (∀ i, i ≤ k → (pg (idx + PAGE_SIZE * i)).rows ≠ [] →
      (collectRows base (pg (idx + PAGE_SIZE * i)).rows).isSome = true) →
    k < fuel →
    ∃ recs logs, paginateAux base pg fuel idx acc = some (recs, logs)
      ∧ pagesVisited logs = (List.range (k + 1)).map (fun i => idx + PAGE_SIZE * i) := by
  intro k
  induction k with
  | zero =>
    intro idx acc fuel hns hstop hcol hfuel
    obtain ⟨f, rfl⟩ : ∃ f, fuel = f + 1 := ⟨fuel - 1, by omega⟩
    simp only [Nat.mul_zero, Nat.add_zero] at hstop
    cases hrows : (pg idx).rows with
    | nil =>
      refine ⟨[], [.fetching idx, .noMore], ?_,
        by simp [pagesVisited, List.range_succ]⟩
      rw [paginateAux.eq_def]
      dsimp only
      rw [hrows]
      simp
    | cons r rs =>
      have hnavf : (pg idx).navNext = false := by
        rcases hstop with h | h
        · rw [hrows] at h; cases h
        · exact h
      have hcs := hcol 0 (by omega)
      simp only [Nat.mul_zero, Nat.add_zero] at hcs
      obtain ⟨recs0, heq0⟩ := Option.isSome_iff_exists.mp (hcs (by rw [hrows]; simp))
      rw [hrows] at heq0
      refine ⟨recs0, [.fetching idx, .collected (r :: rs).length (acc + recs0.length),
        .lastPage], ?_, by simp [pagesVisited, List.range_succ]⟩
      rw [paginateAux.eq_def]
      dsimp only
      rw [hrows]
      simp only [List.isEmpty_cons, Bool.false_eq_true, if_false]
      rw [heq0]
      dsimp only
      rw [hnavf]
      simp
  | succ k ih =>
    intro idx acc fuel hns hstop hcol hfuel
    obtain ⟨f, rfl⟩ : ∃ f, fuel = f + 1 := ⟨fuel - 1, by omega⟩
    have h0 := hns 0 (by omega)
    simp only [Nat.mul_zero, Nat.add_zero] at h0
    obtain ⟨hne0, hnav0⟩ := h0
    have hcs := hcol 0 (by omega)
    simp only [Nat.mul_zero, Nat.add_zero] at hcs
    obtain ⟨recs0, heq0⟩ := Option.isSome_iff_exists.mp (hcs hne0)
    have hshift : ∀ i : Nat, idx + PAGE_SIZE * (i + 1) = idx + PAGE_SIZE + PAGE_SIZE * i := by
      intro i; ring
    obtain ⟨recs1, logs1, heq1, hvis1⟩ := ih (idx + PAGE_SIZE) (acc + recs0.length) f
      (by
        intro i hi
        have := hns (i + 1) (by omega)
        rw [hshift i] at this
        exact this)
      (by
        have := hstop
        rw [hshift k] at this
        exact this)
      (by
        intro i hi
        have := hcol (i + 1) (by omega)
        rw [hshift i] at this
        exact this)
      (by omega)
    cases hrows : (pg idx).rows with
    | nil => exact absurd hrows hne0
    | cons r rs =>
      rw [hrows] at heq0
      refine ⟨recs0 ++ recs1, [PageLog.fetching idx,
        PageLog.collected (r :: rs).length (acc + recs0.length)] ++ logs1, ?_, ?_⟩
      · rw [paginateAux.eq_def]
        dsimp only
        rw [hrows]
        simp only [List.isEmpty_cons, Bool.false_eq_true, if_false]
        rw [heq0]
        dsimp only
        rw [hnav0]
        simp only [if_true]
        rw [heq1]
      · rw [pagesVisited, List.filterMap_append]
        have hhead : List.filterMap
            (fun l => match l with
              | PageLog.fetching idx => some idx
              | _ => none)
            [PageLog.fetching idx,
             PageLog.collected (r :: rs).length (acc + recs0.length)] = [idx] := rfl
        rw [hhead]
        rw [show List.filterMap
            (fun l => match l with
              | PageLog.fetching idx => some idx
              | _ => none) logs1 = pagesVisited logs1 from rfl]
        rw [hvis1]
        rw [range_map_pageSize idx (k + 1)]
        rfl

/-- Helper: whenever the pagination loop completes at all, it is because
some fetched page had no rows or no next-page link: the loop has no
other exit. -/
theorem paginateAux_stop_exists (base : String) (pg : Nat → PageView) :
    ∀ (fuel idx acc : Nat) (r : List IssueRec × List PageLog),
    paginateAux base pg fuel idx acc = some r →
    ∃ j, (pg j).rows = [] ∨ (pg j).navNext = false := by
  intro fuel
  induction fuel with
  | zero => intro idx acc r h; simp [paginateAux] at h
  | succ f ih =>
    intro idx acc r h
    rw [paginateAux.eq_def] at h
    dsimp only at h
    cases hrows : (pg idx).rows with
    | nil => exact ⟨idx, Or.inl hrows⟩
    | cons r0 rs =>
      rw [hrows] at h
      simp only [List.isEmpty_cons, Bool.false_eq_true, if_false] at h
      cases hcoll : collectRows base (r0 :: rs) with
      | none => rw [hcoll] at h; cases h
      | some recs =>
        rw [hcoll] at h
        dsimp only at h
        cases hnav : (pg idx).navNext with
        | false => exact ⟨idx, Or.inr hnav⟩
        | true =>
          rw [hnav] at h
          simp only [if_true] at h
          cases hin : paginateAux base pg f (idx + PAGE_SIZE) (acc + recs.length) with
          | none => rw [hin] at h; cases h
          | some r1 => exact ih (idx + PAGE_SIZE) (acc + recs.length) r1 hin

/-- C7: pagination fetches offsets advancing by the fixed PAGE_SIZE (50)
after each non-empty page and terminates exactly when a page yields zero
rows or the next-page link is absent; a non-empty page with fewer rows
than the page size does not end pagination (the hypotheses allow every
non-terminal page any non-zero row count), so when the remote source
eventually signals the end, the produced sequence is finite: the loop
visits exactly the offsets 0, 50, ..., 50k where page k is the first to
signal, and conversely any completed run saw such a page. -/
theorem pagination_pages_and_termination (base : String) (pg : Nat → PageView)
    (k fuel acc : Nat)
    (hns : ∀ i, i < k → (pg (PAGE_SIZE * i)).rows ≠ []
      ∧ (pg (PAGE_SIZE * i)).navNext = true)
    (hstop : (pg (PAGE_SIZE * k)).rows = [] ∨ (pg (PAGE_SIZE * k)).navNext = false)
    (hcol : ∀ i, i ≤ k → (pg (PAGE_SIZE * i)).rows ≠ [] →
      (collectRows base (pg (PAGE_SIZE * i)).rows).isSome = true)
    (hfuel : k < fuel) :
    (∃ recs logs, paginateAux base pg fuel 0 acc = some (recs, logs)
      ∧ pagesVisited logs = (List.range (k + 1)).map (fun i => PAGE_SIZE * i))
    ∧ (∀ (fuel2 idx2 acc2 : Nat) (r2 : List IssueRec × List PageLog),
        paginateAux base pg fuel2 idx2 acc2 = some r2 →
        ∃ j, (pg j).rows = [] ∨ (pg j).navNext = false) := by
  constructor
  · obtain ⟨recs, logs, he, hv⟩ := paginateAux_visits base pg k 0 acc fuel
      (by intro i hi; simpa using hns i hi)
      (by simpa using hstop)
      (by intro i hi; simpa using hcol i hi)
      hfuel
    refine ⟨recs, logs, he, ?_⟩
    rw [hv]
    refine List.map_congr_left ?_
    intro i _
    omega
  · intro fuel2 idx2 acc2 r2 h
    exact paginateAux_stop_exists base pg fuel2 idx2 acc2 r2 h

/-- Witness for C7 at a concrete input: a source whose first page has
two rows (fewer than PAGE_SIZE) and a next-page link, and whose second
page has one row and no link, is paginated to completion visiting
exactly offsets 0 and 50. -/
theorem pagination_pages_and_termination_witness :
    (∀ i, i < 1 → (pgTwoPages (PAGE_SIZE * i)).rows ≠ []
      ∧ (pgTwoPages (PAGE_SIZE * i)).navNext = true)
    ∧ ((pgTwoPages (PAGE_SIZE * 1)).rows = [] ∨ (pgTwoPages (PAGE_SIZE * 1)).navNext = false)
    ∧ ((∃ recs logs, paginateAux "B" pgTwoPages 3 0 0 = some (recs, logs)
        ∧ pagesVisited logs = (List.range 2).map (fun i => PAGE_SIZE * i))
      ∧ (∀ (fuel2 idx2 acc2 : Nat) (r2 : List IssueRec × List PageLog),
          paginateAux "B" pgTwoPages fuel2 idx2 acc2 = some r2 →
          ∃ j, (pgTwoPages j).rows = [] ∨ (pgTwoPages j).navNext = false)) :=
  ⟨by decide, by decide,
   pagination_pages_and_termination "B" pgTwoPages 1 3 0
     (by decide) (by decide) (by decide) (by decide)⟩

/-- Helper: writing the same file to two filesystems that agree on all
modification times preserves the agreement. -/
theorem mtimes_update (fs fs2 : FS) (h : ∀ p, mtimes fs2 p = mtimes fs p)
    (q : String) (fd : FileData) :
    ∀ p, mtimes (FS.update fs2 q fd) p = mtimes (FS.update fs q fd) p := by
  intro p
  by_cases hpq : p = q
  · simp [mtimes, FS.update, hpq]
  · simp only [mtimes, FS.update, hpq, if_false]
    exact h p

/-- Helper: the download loop reads the filesystem only through file
existence and modification times: on two filesystems agreeing on all
mtimes it produces the same counters, the same trace (in particular the
same skips and the same fetches) and the same abort flag, and keeps the
mtimes in agreement.  File contents are never consulted — nothing is
hashed. -/
theorem processDownloads_mtimes_only (fetch : String → FetchResp) (pt : String → Int) :
    ∀ (es : List DlEntry) (fs fs2 : FS) (t : Totals) (force : Bool),
    (∀ p, mtimes fs2 p = mtimes fs p) →
    (processDownloads fetch pt force es fs2 t).totals
        = (processDownloads fetch pt force es fs t).totals
    ∧ (processDownloads fetch pt force es fs2 t).trace
        = (processDownloads fetch pt force es fs t).trace
    ∧ (processDownloads fetch pt force es fs2 t).aborted
        = (processDownloads fetch pt force es fs t).aborted
    ∧ (∀ p, mtimes (processDownloads fetch pt force es fs2 t).fs p
        = mtimes (processDownloads fetch pt force es fs t).fs p) := by
  intro es
  induction es with
  | nil => intro fs fs2 t force h; exact ⟨rfl, rfl, rfl, h⟩
  | cons e rest ih =>
    intro fs fs2 t force h
    have harm : (fetchArm fetch pt force e rest fs2 t).totals
          = (fetchArm fetch pt force e rest fs t).totals
        ∧ (fetchArm fetch pt force e rest fs2 t).trace
          = (fetchArm fetch pt force e rest fs t).trace
        ∧ (fetchArm fetch pt force e rest fs2 t).aborted
          = (fetchArm fetch pt force e rest fs t).aborted
        ∧ (∀ p, mtimes (fetchArm fetch pt force e rest fs2 t).fs p
          = mtimes (fetchArm fetch pt force e rest fs t).fs p) := by
      by_cases hst : (fetch e.url).status = 200
      · rw [fetchArm_ok fetch pt force e rest fs t hst,
          fetchArm_ok fetch pt force e rest fs2 t hst]
        obtain ⟨g1, g2, g3, g4⟩ := ih
          (FS.update fs e.path ⟨pt e.created, (fetch e.url).body⟩)
          (FS.update fs2 e.path ⟨pt e.created, (fetch e.url).body⟩)
          { t with downloadedFiles := t.downloadedFiles + 1,
                   downloadedSize := t.downloadedSize + e.size }
          force
          (mtimes_update fs fs2 h e.path ⟨pt e.created, (fetch e.url).body⟩)
        exact ⟨g1, by rw [g2], g3, g4⟩
      · have hst2 : (fetch e.url).status ≠ 200 := hst
        rw [fetchArm_fatal fetch pt force e rest fs t hst2,
          fetchArm_fatal fetch pt force e rest fs2 t hst2]
        exact ⟨rfl, rfl, rfl, h⟩
    cases hfs : fs e.path with
    | none =>
      have hfs2 : fs2 e.path = none := by
        have hp := h e.path
        rw [mtimes, mtimes, hfs] at hp
        simpa using hp
      rw [pd_cons_absent fetch pt force e rest fs t hfs,
        pd_cons_absent fetch pt force e rest fs2 t hfs2]
      exact harm
    | some fd =>
      have hp := h e.path
      rw [mtimes, mtimes, hfs] at hp
      cases hq : fs2 e.path with
      | none => rw [hq] at hp; simp at hp
      | some fd2 =>
        rw [hq] at hp
        have hm : fd2.mtime = fd.mtime := by simpa using hp
        cases force with
        | true =>
          rw [pd_cons_force fetch pt e rest fs t fd hfs,
            pd_cons_force fetch pt e rest fs2 t fd2 hq]
          exact harm
        | false =>
          by_cases htol : |fd.mtime - pt e.created| < 1
          · have htol2 : |fd2.mtime - pt e.created| < 1 := by rw [hm]; exact htol
            rw [pd_cons_skip fetch pt e rest fs t fd hfs htol,
              pd_cons_skip fetch pt e rest fs2 t fd2 hq htol2]
            obtain ⟨g1, g2, g3, g4⟩ := ih fs fs2
              { t with skippedFiles := t.skippedFiles + 1 } false h
            exact ⟨g1, by rw [g2], g3, g4⟩
          · have htol2 : ¬ |fd2.mtime - pt e.created| < 1 := by rw [hm]; exact htol
            rw [pd_cons_stale fetch pt e rest fs t fd hfs htol,
              pd_cons_stale fetch pt e rest fs2 t fd2 hq htol2]
            exact harm

/-- C5: in non-force, non-dry-run mode (the download loop only runs
outside dry-run), an entry whose target file exists with a modification
time within the strict 1-second tolerance of the parsed createdAt is
skipped: the skip counter is bumped, the trace records only the skip (no
fetch event for the entry), the filesystem is passed on untouched; and
the timestamp comparison is the sole deduplication mechanism — the
whole loop reads the filesystem only through existence and mtimes, never
through content. -/
theorem timestamp_match_skips (fetch : String → FetchResp) (pt : String → Int)
    (e : DlEntry) (rest : List DlEntry) (fs : FS) (t : Totals) (fd : FileData)
    (hex : fs e.path = some fd)
    (htol : |fd.mtime - pt e.created| < 1) :
    processDownloads fetch pt false (e :: rest) fs t
      = ⟨(processDownloads fetch pt false rest fs
            { t with skippedFiles := t.skippedFiles + 1 }).fs,
         (processDownloads fetch pt false rest fs
            { t with skippedFiles := t.skippedFiles + 1 }).totals,
         .skippedTs e.path :: (processDownloads fetch pt false rest fs
            { t with skippedFiles := t.skippedFiles + 1 }).trace,
         (processDownloads fetch pt false rest fs
            { t with skippedFiles := t.skippedFiles + 1 }).aborted⟩
    ∧ (∀ (fs2 : FS), (∀ p, mtimes fs2 p = mtimes fs p) →
        ∀ (force2 : Bool) (es : List DlEntry) (t2 : Totals),
          (processDownloads fetch pt force2 es fs2 t2).totals
            = (processDownloads fetch pt force2 es fs t2).totals
          ∧ (processDownloads fetch pt force2 es fs2 t2).trace
            = (processDownloads fetch pt force2 es fs t2).trace
          ∧ (processDownloads fetch pt force2 es fs2 t2).aborted
            = (processDownloads fetch pt force2 es fs t2).aborted) := by
  refine ⟨pd_cons_skip fetch pt e rest fs t fd hex htol, ?_⟩
  intro fs2 h2 force2 es t2
  obtain ⟨g1, g2, g3, _⟩ := processDownloads_mtimes_only fetch pt es fs fs2 t2 force2 h2
  exact ⟨g1, g2, g3⟩

/-- Witness for C5 at a concrete input: the file at path pa exists with
mtime zero, matching the parsed createdAt of dlA exactly, so dlA is
skipped. -/
theorem timestamp_match_skips_witness :
    fsOnlyPa dlA.path = some ⟨0, 7⟩
    ∧ |(0 : Int) - ptZero dlA.created| < 1
    ∧ (processDownloads fetchOk ptZero false (dlA :: [dlC]) fsOnlyPa Totals.zero
        = ⟨(processDownloads fetchOk ptZero false [dlC] fsOnlyPa
              { Totals.zero with skippedFiles := Totals.zero.skippedFiles + 1 }).fs,
           (processDownloads fetchOk ptZero false [dlC] fsOnlyPa
              { Totals.zero with skippedFiles := Totals.zero.skippedFiles + 1 }).totals,
           .skippedTs dlA.path :: (processDownloads fetchOk ptZero false [dlC] fsOnlyPa
              { Totals.zero with skippedFiles := Totals.zero.skippedFiles + 1 }).trace,
           (processDownloads fetchOk ptZero false [dlC] fsOnlyPa
              { Totals.zero with skippedFiles := Totals.zero.skippedFiles + 1 }).aborted⟩
      ∧ (∀ (fs2 : FS), (∀ p, mtimes fs2 p = mtimes fsOnlyPa p) →
          ∀ (force2 : Bool) (es : List DlEntry) (t2 : Totals),
            (processDownloads fetchOk ptZero force2 es fs2 t2).totals
              = (processDownloads fetchOk ptZero force2 es fsOnlyPa t2).totals
            ∧ (processDownloads fetchOk ptZero force2 es fs2 t2).trace
              = (processDownloads fetchOk ptZero force2 es fsOnlyPa t2).trace
            ∧ (processDownloads fetchOk ptZero force2 es fs2 t2).aborted
              = (processDownloads fetchOk ptZero force2 es fsOnlyPa t2).aborted)) :=
  ⟨by decide, by decide,
   timestamp_match_skips fetchOk ptZero dlA [dlC] fsOnlyPa Totals.zero ⟨0, 7⟩
     (by decide) (by decide)⟩

/-- Helper: the download loop never touches a path that no entry in its
queue writes to. -/
theorem processDownloads_frame (fetch : String → FetchResp) (pt : String → Int)
    (force : Bool) : ∀ (es : List DlEntry) (fs : FS) (t : Totals) (p : String),
    (∀ e ∈ es, e.path ≠ p) →
    (processDownloads fetch pt force es fs t).fs p = fs p := by
  intro es
  induction es with
  | nil => intro fs t p _; rfl
  | cons e rest ih =>
    intro fs t p h
    have hep : e.path ≠ p := h e (List.mem_cons_self e rest)
    have hrest : ∀ x ∈ rest, x.path ≠ p := fun x hx => h x (List.mem_cons_of_mem e hx)
    have harm : (fetchArm fetch pt force e rest fs t).fs p = fs p := by
      by_cases hst : (fetch e.url).status = 200
      · rw [fetchArm_ok fetch pt force e rest fs t hst]
        dsimp only
        rw [ih _ _ p hrest]
        simp only [FS.update, if_neg (Ne.symm hep)]
      · have hst2 : (fetch e.url).status ≠ 200 := hst
        rw [fetchArm_fatal fetch pt force e rest fs t hst2]
    cases hfs : fs e.path with
    | none =>
      rw [pd_cons_absent fetch pt force e rest fs t hfs]
      exact harm
    | some fd =>
      cases force with
      | true =>
        rw [pd_cons_force fetch pt e rest fs t fd hfs]
        exact harm
      | false =>
        by_cases htol : |fd.mtime - pt e.created| < 1
        · rw [pd_cons_skip fetch pt e rest fs t fd hfs htol]
          exact ih _ _ p hrest
        · rw [pd_cons_stale fetch pt e rest fs t fd hfs htol]
          exact harm

/-- Helper: a download run over pairwise-distinct paths in which every
fetch answers 200 never aborts, and leaves every entry of the queue on
disk with its mtime stamped to the parsed createdAt — whether the entry
was freshly downloaded or skipped because it already matched. -/
theorem processDownloads_all_ok (fetch : String → FetchResp) (pt : String → Int) :
    ∀ (es : List DlEntry) (fs : FS) (t : Totals),
    es.Pairwise (fun e1 e2 => e1.path ≠ e2.path) →
    (∀ e ∈ es, (fetch e.url).status = 200) →
    (processDownloads fetch pt false es fs t).aborted = false
    ∧ ∀ e ∈ es, ∃ fd, (processDownloads fetch pt false es fs t).fs e.path = some fd
        ∧ fd.mtime = pt e.created := by
  intro es
  induction es with
  | nil => intro fs t _ _; exact ⟨rfl, by simp⟩
  | cons e rest ih =>
    intro fs t hp hok
    rw [List.pairwise_cons] at hp
    obtain ⟨hneq, hpw⟩ := hp
    have hokr : ∀ x ∈ rest, (fetch x.url).status = 200 :=
      fun x hx => hok x (List.mem_cons_of_mem e hx)
    have hframe : ∀ (fs0 : FS) (t0 : Totals),
        (processDownloads fetch pt false rest fs0 t0).fs e.path = fs0 e.path :=
      fun fs0 t0 => processDownloads_frame fetch pt false rest fs0 t0 e.path
        (fun y hy => (hneq y hy).symm)
    have harm : ∀ t0 : Totals,
        (fetchArm fetch pt false e rest fs t0).aborted = false
        ∧ ∀ x ∈ e :: rest, ∃ fd,
            (fetchArm fetch pt false e rest fs t0).fs x.path = some fd
            ∧ fd.mtime = pt x.created := by
      intro t0
      have hst := hok e (List.mem_cons_self e rest)
      rw [fetchArm_ok fetch pt false e rest fs t0 hst]
      obtain ⟨ha, hrest⟩ := ih
        (FS.update fs e.path ⟨pt e.created, (fetch e.url).body⟩)
        { t0 with downloadedFiles := t0.downloadedFiles + 1,
                  downloadedSize := t0.downloadedSize + e.size }
        hpw hokr
      refine ⟨ha, ?_⟩
      intro x hx
      rcases List.mem_cons.mp hx with hxe | hxr
      · subst hxe
        refine ⟨⟨pt x.created, (fetch x.url).body⟩, ?_, rfl⟩
        dsimp only
        rw [hframe]
        simp [FS.update]
      · exact hrest x hxr
    cases hfs : fs e.path with
    | none =>
      rw [pd_cons_absent fetch pt false e rest fs t hfs]
      exact harm t
    | some fd =>
      by_cases htol : |fd.mtime - pt e.created| < 1
      · have hmt : fd.mtime = pt e.created := by
          rw [abs_lt] at htol
          omega
        rw [pd_cons_skip fetch pt e rest fs t fd hfs htol]
        obtain ⟨ha, hrest⟩ := ih fs { t with skippedFiles := t.skippedFiles + 1 } hpw hokr
        refine ⟨ha, ?_⟩
        intro x hx
        rcases List.mem_cons.mp hx with hxe | hxr
        · subst hxe
          refine ⟨fd, ?_, hmt⟩
          dsimp only
          rw [hframe, hfs]
        · exact hrest x hxr
      · rw [pd_cons_stale fetch pt e rest fs t fd hfs htol]
        exact harm t

/-- Helper: a download run in which every entry already sits on disk
with its mtime equal to the parsed createdAt does nothing but skip: the
filesystem is returned unchanged, the skip counter advances by the queue
length, the trace is all skips, nothing aborts. -/
theorem processDownloads_all_skip (fetch : String → FetchResp) (pt : String → Int) :
    ∀ (es : List DlEntry) (fs : FS) (t : Totals),
    (∀ e ∈ es, ∃ fd, fs e.path = some fd ∧ fd.mtime = pt e.created) →
    processDownloads fetch pt false es fs t
      = ⟨fs, { t with skippedFiles := t.skippedFiles + es.length },
         es.map (fun e => Ev.skippedTs e.path), false⟩ := by
  intro es
  induction es with
  | nil => intro fs t _; rfl
  | cons e rest ih =>
    intro fs t h
    obtain ⟨fd, hfs, hmt⟩ := h e (List.mem_cons_self e rest)
    have htol : |fd.mtime - pt e.created| < 1 := by
      rw [hmt, sub_self]
      norm_num
    rw [pd_cons_skip fetch pt e rest fs t fd hfs htol]
    rw [ih fs { t with skippedFiles := t.skippedFiles + 1 }
      (fun x hx => h x (List.mem_cons_of_mem e hx))]
    obtain ⟨ta, tb, tc, td⟩ := t
    dsimp only
    rw [show tc + 1 + rest.length = tc + (rest.length + 1) from by omega]
    rfl

/-- C3: a normal-mode run of the download loop over entries with
pairwise-distinct target paths in which every byte fetch answers 200
never aborts, leaves every entry on disk with its modification time set
to the parsed createdAt (hence matching createdAt within 1 second); and
a second normal-mode run over the same entries against the resulting
filesystem performs zero downloads — it only skips, leaving the file
set (and every file) unchanged. -/
theorem sync_mtime_set_and_idempotent (fetch : String → FetchResp) (pt : String → Int)
    (entries : List DlEntry) (fs : FS) (t t2 : Totals)
    (hdist : entries.Pairwise (fun e1 e2 => e1.path ≠ e2.path))
    (hok : ∀ e ∈ entries, (fetch e.url).status = 200) :
    (processDownloads fetch pt false entries fs t).aborted = false
    ∧ (∀ e ∈ entries, ∃ fd,
        (processDownloads fetch pt false entries fs t).fs e.path = some fd
        ∧ fd.mtime = pt e.created ∧ |fd.mtime - pt e.created| < 1)
    ∧ processDownloads fetch pt false entries
        ((processDownloads fetch pt false entries fs t).fs) t2
        = ⟨(processDownloads fetch pt false entries fs t).fs,
           { t2 with skippedFiles := t2.skippedFiles + entries.length },
           entries.map (fun e => Ev.skippedTs e.path), false⟩ := by
  obtain ⟨ha, hmt⟩ := processDownloads_all_ok fetch pt entries fs t hdist hok
  refine ⟨ha, ?_, ?_⟩
  · intro e he
    obtain ⟨fd, h1, h2⟩ := hmt e he
    refine ⟨fd, h1, h2, ?_⟩
    rw [h2, sub_self]
    norm_num
  · exact processDownloads_all_skip fetch pt entries _ t2 hmt

/-- Witness for C3 at a concrete input: two entries with distinct target
paths against an empty filesystem and an all-200 fetcher. -/
theorem sync_mtime_set_and_idempotent_witness :
    List.Pairwise (fun e1 e2 : DlEntry => e1.path ≠ e2.path) [dlA, dlC]
    ∧ (∀ e ∈ [dlA, dlC], (fetchOk e.url).status = 200)
    ∧ ((processDownloads fetchOk ptZero false [dlA, dlC] fsEmpty Totals.zero).aborted = false
      ∧ (∀ e ∈ [dlA, dlC], ∃ fd,
          (processDownloads fetchOk ptZero false [dlA, dlC] fsEmpty Totals.zero).fs e.path
            = some fd
          ∧ fd.mtime = ptZero e.created ∧ |fd.mtime - ptZero e.created| < 1)
      ∧ processDownloads fetchOk ptZero false [dlA, dlC]
          ((processDownloads fetchOk ptZero false [dlA, dlC] fsEmpty Totals.zero).fs) Totals.zero
          = ⟨(processDownloads fetchOk ptZero false [dlA, dlC] fsEmpty Totals.zero).fs,
             { Totals.zero with skippedFiles := Totals.zero.skippedFiles + [dlA, dlC].length },
             [dlA, dlC].map (fun e => Ev.skippedTs e.path), false⟩) :=
  ⟨by decide, by decide,
   sync_mtime_set_and_idempotent fetchOk ptZero [dlA, dlC] fsEmpty Totals.zero Totals.zero
     (by decide) (by decide)⟩

/-- Helper: a download run over an appended queue whose first part does
not abort is the first-part run followed by the run of the second part
from the resulting filesystem and counters, with the traces
concatenated. -/
theorem processDownloads_append (fetch : String → FetchResp) (pt : String → Int)
    (force : Bool) : ∀ (pre rest2 : List DlEntry) (fs : FS) (t : Totals),
    (processDownloads fetch pt force pre fs t).aborted = false →
    processDownloads fetch pt force (pre ++ rest2) fs t
      = ⟨(processDownloads fetch pt force rest2
            (processDownloads fetch pt force pre fs t).fs
            (processDownloads fetch pt force pre fs t).totals).fs,
         (processDownloads fetch pt force rest2
            (processDownloads fetch pt force pre fs t).fs
            (processDownloads fetch pt force pre fs t).totals).totals,
         (processDownloads fetch pt force pre fs t).trace
           ++ (processDownloads fetch pt force rest2
            (processDownloads fetch pt force pre fs t).fs
            (processDownloads fetch pt force pre fs t).totals).trace,
         (processDownloads fetch pt force rest2
            (processDownloads fetch pt force pre fs t).fs
            (processDownloads fetch pt force pre fs t).totals).aborted⟩ := by
  intro pre
  induction pre with
  | nil => intro rest2 fs t _; simp [pd_nil]
  | cons e pre1 ih =>
    intro rest2 fs t h
    rw [List.cons_append]
    have harm : (fetchArm fetch pt force e pre1 fs t).aborted = false →
        fetchArm fetch pt force e (pre1 ++ rest2) fs t
          = ⟨(processDownloads fetch pt force rest2
                (fetchArm fetch pt force e pre1 fs t).fs
                (fetchArm fetch pt force e pre1 fs t).totals).fs,
             (processDownloads fetch pt force rest2
                (fetchArm fetch pt force e pre1 fs t).fs
                (fetchArm fetch pt force e pre1 fs t).totals).totals,
             (fetchArm fetch pt force e pre1 fs t).trace
               ++ (processDownloads fetch pt force rest2
                (fetchArm fetch pt force e pre1 fs t).fs
                (fetchArm fetch pt force e pre1 fs t).totals).trace,
             (processDownloads fetch pt force rest2
                (fetchArm fetch pt force e pre1 fs t).fs
                (fetchArm fetch pt force e pre1 fs t).totals).aborted⟩ := by
      intro harb
      by_cases hst : (fetch e.url).status = 200
      · rw [fetchArm_ok fetch pt force e pre1 fs t hst,
          fetchArm_ok fetch pt force e (pre1 ++ rest2) fs t hst]
        dsimp only
        rw [ih rest2 (FS.update fs e.path ⟨pt e.created, (fetch e.url).body⟩)
          { t with downloadedFiles := t.downloadedFiles + 1,
                   downloadedSize := t.downloadedSize + e.size }
          (by
            rw [fetchArm_ok fetch pt force e pre1 fs t hst] at harb
            exact harb)]
        simp
      · have hst2 : (fetch e.url).status ≠ 200 := hst
        rw [fetchArm_fatal fetch pt force e pre1 fs t hst2] at harb
        cases harb
    cases hfs : fs e.path with
    | none =>
      rw [pd_cons_absent fetch pt force e pre1 fs t hfs] at h
      rw [pd_cons_absent fetch pt force e (pre1 ++ rest2) fs t hfs,
        pd_cons_absent fetch pt force e pre1 fs t hfs]
      exact harm h
    | some fd =>
      cases force with
      | true =>
        rw [pd_cons_force fetch pt e pre1 fs t fd hfs] at h
        rw [pd_cons_force fetch pt e (pre1 ++ rest2) fs t fd hfs,
          pd_cons_force fetch pt e pre1 fs t fd hfs]
        exact harm h
      | false =>
        by_cases htol : |fd.mtime - pt e.created| < 1
        · rw [pd_cons_skip fetch pt e pre1 fs t fd hfs htol] at h
          dsimp only at h
          rw [pd_cons_skip fetch pt e (pre1 ++ rest2) fs t fd hfs htol,
            pd_cons_skip fetch pt e pre1 fs t fd hfs htol]
          dsimp only
          rw [ih rest2 fs { t with skippedFiles := t.skippedFiles + 1 } h]
          simp
        · rw [pd_cons_stale fetch pt e pre1 fs t fd hfs htol] at h
          rw [pd_cons_stale fetch pt e (pre1 ++ rest2) fs t fd hfs htol,
            pd_cons_stale fetch pt e pre1 fs t fd hfs htol]
          exact harm h

/-- C4: a non-200 status on the byte fetch of one queued attachment is
fatal for the entire remaining queue: when the entries before it all
fetch successfully and the failing entry reaches its fetch (its target
path is absent and untouched by the earlier entries), the run equals the
successful prefix run followed by the fetch and the auth-error line,
aborted — the entries after the failure are never examined (the result
does not depend on them at all); every file the prefix wrote is still on
disk in the final state; and at the invocation level an aborted file
stops the loop over the remaining files, surfacing the partial result as
it stands. -/
theorem fatal_fetch_aborts_rest (fetch : String → FetchResp) (pt : String → Int)
    (quoteFn : String → String) (force2 : Bool) (baseUrl : String)
    (pre post : List DlEntry) (bad : DlEntry) (fs : FS) (t : Totals)
    (hpre : ∀ e ∈ pre, (fetch e.url).status = 200)
    (hdist : (pre ++ [bad]).Pairwise (fun e1 e2 => e1.path ≠ e2.path))
    (hnew : fs bad.path = none)
    (hbad : (fetch bad.url).status ≠ 200) :
    processDownloads fetch pt false (pre ++ bad :: post) fs t
      = ⟨(processDownloads fetch pt false pre fs t).fs,
         (processDownloads fetch pt false pre fs t).totals,
         (processDownloads fetch pt false pre fs t).trace
           ++ [Ev.fetched bad.url, Ev.authError (fetch bad.url).status],
         true⟩
    ∧ (∀ e ∈ pre, ∃ fd,
        (processDownloads fetch pt false (pre ++ bad :: post) fs t).fs e.path = some fd
        ∧ fd.mtime = pt e.created)
    ∧ (∀ (f : SrcFile) (rest2 : List SrcFile) (fs2 : FS) (t2 : Totals),
        (processFile fetch pt quoteFn false force2 baseUrl f fs2 t2).aborted = true →
        runFiles fetch pt quoteFn false force2 baseUrl (f :: rest2) fs2 t2
          = processFile fetch pt quoteFn false force2 baseUrl f fs2 t2) := by
  rw [List.pairwise_append] at hdist
  obtain ⟨hpwpre, _, hcross⟩ := hdist
  have hbadne : ∀ e ∈ pre, e.path ≠ bad.path :=
    fun e he => hcross e he bad (List.mem_singleton.mpr rfl)
  obtain ⟨hab, hmt⟩ := processDownloads_all_ok fetch pt pre fs t hpwpre hpre
  have hframe : (processDownloads fetch pt false pre fs t).fs bad.path = fs bad.path :=
    processDownloads_frame fetch pt false pre fs t bad.path hbadne
  have hstep : processDownloads fetch pt false (bad :: post)
      (processDownloads fetch pt false pre fs t).fs
      (processDownloads fetch pt false pre fs t).totals
      = ⟨(processDownloads fetch pt false pre fs t).fs,
         (processDownloads fetch pt false pre fs t).totals,
         [Ev.fetched bad.url, Ev.authError (fetch bad.url).status], true⟩ := by
    rw [pd_cons_absent fetch pt false bad post _ _ (by rw [hframe]; exact hnew)]
    rw [fetchArm_fatal fetch pt false bad post _ _ hbad]
  have hmain : processDownloads fetch pt false (pre ++ bad :: post) fs t
      = ⟨(processDownloads fetch pt false pre fs t).fs,
         (processDownloads fetch pt false pre fs t).totals,
         (processDownloads fetch pt false pre fs t).trace
           ++ [Ev.fetched bad.url, Ev.authError (fetch bad.url).status],
         true⟩ := by
    rw [processDownloads_append fetch pt false pre (bad :: post) fs t hab, hstep]
  refine ⟨hmain, ?_, ?_⟩
  · intro e he
    obtain ⟨fd, h1, h2⟩ := hmt e he
    refine ⟨fd, ?_, h2⟩
    rw [hmain]
    exact h1
  · intro f rest2 fs2 t2 habort
    rw [runFiles]
    simp only [habort, if_true]

/-- Witness for C4 at a concrete input: dlA fetches fine, dlB answers
500, dlC is queued after it; the run writes dlA, aborts at dlB and never
looks at dlC. -/
theorem fatal_fetch_aborts_rest_witness :
    (∀ e ∈ [dlA], (fetchBadB e.url).status = 200)
    ∧ (fetchBadB dlB.url).status ≠ 200
    ∧ (processDownloads fetchBadB ptZero false ([dlA] ++ dlB :: [dlC]) fsEmpty Totals.zero
        = ⟨(processDownloads fetchBadB ptZero false [dlA] fsEmpty Totals.zero).fs,
           (processDownloads fetchBadB ptZero false [dlA] fsEmpty Totals.zero).totals,
           (processDownloads fetchBadB ptZero false [dlA] fsEmpty Totals.zero).trace
             ++ [Ev.fetched dlB.url, Ev.authError (fetchBadB dlB.url).status],
           true⟩
      ∧ (∀ e ∈ [dlA], ∃ fd,
          (processDownloads fetchBadB ptZero false ([dlA] ++ dlB :: [dlC]) fsEmpty
            Totals.zero).fs e.path = some fd
          ∧ fd.mtime = ptZero e.created)
      ∧ (∀ (f : SrcFile) (rest2 : List SrcFile) (fs2 : FS) (t2 : Totals),
          (processFile fetchBadB ptZero quoteId false false "B" f fs2 t2).aborted = true →
          runFiles fetchBadB ptZero quoteId false false "B" (f :: rest2) fs2 t2
            = processFile fetchBadB ptZero quoteId false false "B" f fs2 t2)) :=
  ⟨by decide, by decide,
   fatal_fetch_aborts_rest fetchBadB ptZero quoteId false "B" [dlA] [dlC] dlB fsEmpty
     Totals.zero (by decide) (by decide) (by decide) (by decide)⟩

end JiraDumper
